import Mathlib

/-!
Shallow embedding of the API documentation parsing subsystem of the
ai-playground repository: `src/lib/api-parser.ts` (format detection,
the OpenAPI / Swagger / Postman / HTML extractors, the main dispatch
function and the validator), the token estimator of
`src/lib/ai-utils.ts`, and the context-injection formatter
(`formatContextForAI`, `estimateContextTokens`, `isContextTooLarge`).

The TypeScript code works on dynamically typed JSON-like values, so the
embedding models JavaScript runtime values (`JValue`), property access
(throwing a TypeError on `null`/`undefined` receivers), truthiness, the
platform functions `JSON.parse` / `JSON.stringify`, string conversion,
and the WHATWG `URL` constructor fragment the source relies on.
Fallible code returns `Except JSError _`.  All recursion is structural
(fuel-based where the source recurses over nested dynamic data), so
every definition evaluates by kernel reduction on concrete inputs.
-/

namespace ApiPlayground

/-- Dynamic JavaScript/JSON runtime values.  Numbers are modelled as
rationals (JSON numeric literals denote exact decimals; JS float
behavior beyond that is not needed by any claim). -/
inductive JValue where
  | null : JValue
  | bool : Bool → JValue
  | num : Rat → JValue
  | str : String → JValue
  | arr : List JValue → JValue
  | obj : List (String × JValue) → JValue

mutual

/-- Structural size of a value (used as recursion fuel; the derived
`sizeOf` of a nested inductive is not executable). -/
def JValue.size : JValue → Nat
  | .null => 1
  | .bool _ => 1
  | .num _ => 1
  | .str _ => 1
  | .arr xs => 1 + JValue.sizeL xs
  | .obj kvs => 1 + JValue.sizeKV kvs

/-- Total size of a list of values. -/
def JValue.sizeL : List JValue → Nat
  | [] => 0
  | x :: xs => JValue.size x + JValue.sizeL xs

/-- Total size of an object's key/value list. -/
def JValue.sizeKV : List (String × JValue) → Nat
  | [] => 0
  | (_, v) :: rest => JValue.size v + JValue.sizeKV rest

end

/-- A JavaScript runtime exception (the code under test can only raise
TypeErrors: property access on null/undefined, calling a non-function). -/
inductive JSError where
  | typeError : JSError
deriving Repr, DecidableEq

/-- First-match key lookup in an object's key/value list. -/
def lookupField : List (String × JValue) → String → Option JValue
  | [], _ => none
  | (k, v) :: rest, key => if k = key then some v else lookupField rest key

/-- Property access `receiver.key` for a receiver that is not
null/undefined: field of an object, otherwise `undefined` (`none`). -/
def getFieldV : JValue → String → Option JValue
  | .obj kvs, key => lookupField kvs key
  | _, _ => none

/-- Property access that mirrors JavaScript: reading a property of
`null` throws a TypeError. (`undefined` receivers cannot arise because
`JValue` has no undefined; absent properties are `none`.) -/
def getFieldE : JValue → String → Except JSError (Option JValue)
  | .null, _ => .error .typeError
  | v, key => .ok (getFieldV v key)

/-- JavaScript truthiness of a value. -/
def truthyV : JValue → Bool
  | .null => false
  | .bool b => b
  | .num n => decide (n ≠ 0)
  | .str s => decide (s ≠ "")
  | .arr _ => true
  | .obj _ => true

/-- JavaScript truthiness where `none` stands for `undefined`. -/
def truthyO : Option JValue → Bool
  | none => false
  | some v => truthyV v

/-- Optional-chaining access `v?.key` applied to a possibly
undefined/null value. -/
def optChain (v : Option JValue) (key : String) : Option JValue :=
  match v with
  | none => none
  | some .null => none
  | some w => getFieldV w key

/-- Index access `v[0]`, as used by `doc.servers?.[0]` and
`doc.schemes?.[0]`: array element, first character of a string, or the
"0" property of an object; `undefined` otherwise. -/
def jsIndex0 : JValue → Option JValue
  | .arr (x :: _) => some x
  | .arr [] => none
  | .str s => if s = "" then none else some (.str (String.mk (s.data.take 1)))
  | .obj kvs => lookupField kvs "0"
  | _ => none

/-- The JavaScript `a || b` default pattern on a possibly undefined
value: keep `a` when truthy, else the default. -/
def jsOr (v : Option JValue) (d : JValue) : JValue :=
  match v with
  | some x => if truthyV x then x else d
  | none => d

/-! ### JSON.parse model -/

/-- Whitespace characters (the common JS `\s` members; rare Unicode
space characters are not modelled). -/
def isSpaceChar (c : Char) : Bool :=
  c == ' ' || c == '\t' || c == '\n' || c == '\r' || c == '\x0b' || c == '\x0c'

/-- ASCII uppercasing, character by character (the behavior of
`String.prototype.toUpperCase` on the inputs at hand; written on the
character list so it reduces in the kernel). -/
def strToUpper (s : String) : String :=
  String.mk (s.data.map Char.toUpper)

/-- Leading/trailing whitespace removal (`String.prototype.trim`,
written on the character list). -/
def jsTrim (s : String) : String :=
  String.mk (((s.data.dropWhile isSpaceChar).reverse.dropWhile isSpaceChar).reverse)

/-- `String.prototype.startsWith`, written on the character lists. -/
def strStartsWith (s pre : String) : Bool :=
  pre.data.isPrefixOf s.data

/-- JSON whitespace. -/
def isJsonWs (c : Char) : Bool :=
  c == ' ' || c == '\t' || c == '\n' || c == '\r'

/-- Drop leading JSON whitespace. -/
def skipWs : List Char → List Char
  | c :: cs => if isJsonWs c then skipWs cs else c :: cs
  | [] => []

/-- Value of a hexadecimal digit. -/
def hexVal (c : Char) : Option Nat :=
  if c.isDigit then some (c.toNat - '0'.toNat)
  else if 'a' ≤ c ∧ c ≤ 'f' then some (c.toNat - 'a'.toNat + 10)
  else if 'A' ≤ c ∧ c ≤ 'F' then some (c.toNat - 'A'.toNat + 10)
  else none

/-- Parse the body of a JSON string literal (after the opening quote),
with the standard escapes.  Rejects unescaped control characters and
unterminated strings, like `JSON.parse`.  (Astral/surrogate escape
pairs are approximated by `Char.ofNat`; no claim depends on them.) -/
def parseJsonString : List Char → Option (String × List Char) :=
  go []
where
  go (acc : List Char) : List Char → Option (String × List Char)
    | '"' :: rest => some (String.mk acc.reverse, rest)
    | '\\' :: 'u' :: a :: b :: c :: d :: rest =>
        match hexVal a, hexVal b, hexVal c, hexVal d with
        | some ha, some hb, some hc, some hd =>
            go (Char.ofNat (((ha * 16 + hb) * 16 + hc) * 16 + hd) :: acc) rest
        | _, _, _, _ => none
    | '\\' :: e :: rest =>
        (match e with
         | '"' => go ('"' :: acc) rest
         | '\\' => go ('\\' :: acc) rest
         | '/' => go ('/' :: acc) rest
         | 'b' => go ('\x08' :: acc) rest
         | 'f' => go ('\x0c' :: acc) rest
         | 'n' => go ('\n' :: acc) rest
         | 'r' => go ('\r' :: acc) rest
         | 't' => go ('\t' :: acc) rest
         | _ => none)
    | c :: rest => if c.toNat < 32 then none else go (c :: acc) rest
    | [] => none

/-- Longest leading run of decimal digits. -/
def takeDigits : List Char → (List Char × List Char)
  | c :: rest =>
      if c.isDigit then
        let (ds, r) := takeDigits rest
        (c :: ds, r)
      else ([], c :: rest)
  | [] => ([], [])

/-- Numeric value of a digit list. -/
def digitsToNat (ds : List Char) : Nat :=
  ds.foldl (fun n c => n * 10 + (c.toNat - '0'.toNat)) 0

/-- Parse a JSON number (sign, integer part, optional fraction and
exponent).  Components that would make the literal malformed are left
unconsumed, which makes the enclosing parser fail exactly where
`JSON.parse` reports a syntax error. -/
def parseJsonNumber (cs : List Char) : Option (JValue × List Char) :=
  let (neg, cs₁) := match cs with
    | '-' :: r => (true, r)
    | _ => (false, cs)
  match cs₁ with
  | c :: _ =>
      if c.isDigit then
        -- JSON integer part: a lone '0', or a nonzero digit run
        let (intDs, r₀) :=
          match cs₁ with
          | '0' :: r => (['0'], r)
          | _ => takeDigits cs₁
        let (fracDs, r₁) := match r₀ with
          | '.' :: rr =>
              let (ds, rest) := takeDigits rr
              if ds = [] then (([] : List Char), r₀) else (ds, rest)
          | _ => ([], r₀)
        let (expNeg, expDs, r₂) := match r₁ with
          | e :: rr =>
              if e = 'e' ∨ e = 'E' then
                match rr with
                | '-' :: rrr =>
                    let (ds, rest) := takeDigits rrr
                    if ds = [] then (false, ([] : List Char), r₁) else (true, ds, rest)
                | '+' :: rrr =>
                    let (ds, rest) := takeDigits rrr
                    if ds = [] then (false, ([] : List Char), r₁) else (false, ds, rest)
                | _ =>
                    let (ds, rest) := takeDigits rr
                    if ds = [] then (false, ([] : List Char), r₁) else (false, ds, rest)
              else (false, ([] : List Char), r₁)
          | [] => (false, [], r₁)
        let base : Rat :=
          (digitsToNat intDs : Rat) + (digitsToNat fracDs : Rat) / ((10 : Rat) ^ fracDs.length)
        let scaled : Rat :=
          if expNeg then base / (10 : Rat) ^ digitsToNat expDs
          else base * (10 : Rat) ^ digitsToNat expDs
        some (.num (if neg then -scaled else scaled), r₂)
      else none
  | [] => none

/-- Insert a key/value pair the way JavaScript object construction
does: a repeated key replaces the value but keeps the position of the
first occurrence. -/
def insertKV : List (String × JValue) → String → JValue → List (String × JValue)
  | [], k, v => [(k, v)]
  | (k', v') :: rest, k, v =>
      if k' = k then (k', v) :: rest else (k', v') :: insertKV rest k v

/-- Parsing mode for the single recursive JSON parser (kept as one
function so the recursion is structural on the fuel and reduces in the
kernel). -/
inductive JMode where
  | value : JMode
  | elems : JMode
  | members : JMode

/-- Recursive descent over JSON text; `.elems` parses the tail of an
array (returning `.arr`), `.members` the tail of an object (returning
`.obj` of the raw member list in document order). -/
def parseJ : Nat → JMode → List Char → Option (JValue × List Char)
  | 0, _, _ => none
  | fuel + 1, .value, cs =>
      (match skipWs cs with
       | 'n' :: 'u' :: 'l' :: 'l' :: rest => some (.null, rest)
       | 't' :: 'r' :: 'u' :: 'e' :: rest => some (.bool true, rest)
       | 'f' :: 'a' :: 'l' :: 's' :: 'e' :: rest => some (.bool false, rest)
       | '"' :: rest => (parseJsonString rest).map fun p => (.str p.1, p.2)
       | '[' :: rest =>
           (match skipWs rest with
            | ']' :: r => some (.arr [], r)
            | r =>
                match parseJ fuel .elems r with
                | some (.arr l, r') => some (.arr l, r')
                | _ => none)
       | '{' :: rest =>
           (match skipWs rest with
            | '}' :: r => some (.obj [], r)
            | r =>
                match parseJ fuel .members r with
                | some (.obj ms, r') =>
                    some (.obj (ms.foldl (fun acc kv => insertKV acc kv.1 kv.2) []), r')
                | _ => none)
       | c :: rest =>
           if c = '-' ∨ c.isDigit then parseJsonNumber (c :: rest) else none
       | [] => none)
  | fuel + 1, .elems, cs =>
      (match parseJ fuel .value cs with
       | some (v, rest) =>
           (match skipWs rest with
            | ',' :: r =>
                (match parseJ fuel .elems r with
                 | some (.arr l, r') => some (.arr (v :: l), r')
                 | _ => none)
            | ']' :: r => some (.arr [v], r)
            | _ => none)
       | _ => none)
  | fuel + 1, .members, cs =>
      (match skipWs cs with
       | '"' :: rest =>
           (match parseJsonString rest with
            | some (k, r₁) =>
                (match skipWs r₁ with
                 | ':' :: r₂ =>
                     (match parseJ fuel .value r₂ with
                      | some (v, r₃) =>
                          (match skipWs r₃ with
                           | ',' :: r₄ =>
                               (match parseJ fuel .members r₄ with
                                | some (.obj ms, r') => some (.obj ((k, v) :: ms), r')
                                | _ => none)
                           | '}' :: r₄ => some (.obj [(k, v)], r₄)
                           | _ => none)
                      | _ => none)
                 | _ => none)
            | none => none)
       | _ => none)

/-- Model of `JSON.parse`: `none` when the text is not valid JSON.  The
fuel `2 * (length + 1)` dominates the recursion depth of any input of
this length, so exhaustion is unreachable. -/
def jsonParse (s : String) : Option JValue :=
  match parseJ (2 * (s.length + 1)) .value s.data with
  | some (v, rest) => if skipWs rest = [] then some v else none
  | none => none

/-! ### String conversion and JSON.stringify models -/

/-- Smallest exponent `k ≤ fuel` with `den ∣ 10 ^ k` (denominators of
JSON-parsed rationals are of this shape). -/
def decExpAux (den : Nat) : Nat → Nat → Option Nat
  | k, fuel =>
      if 10 ^ k % den = 0 then some k
      else match fuel with
        | 0 => none
        | f + 1 => decExpAux den (k + 1) f

/-- Left-pad a string with zeros to the given length. -/
def padZeros (s : String) (k : Nat) : String :=
  String.mk (List.replicate (k - s.length) '0') ++ s

/-- Number-to-string conversion: exact for integers and finite
decimals (every number produced by `jsonParse`); other rationals are
rendered as a fraction, approximating JS float formatting, which no
claim relies on. -/
def ratToString (q : Rat) : String :=
  if q.den = 1 then toString q.num
  else
    match decExpAux q.den 0 64 with
    | some k =>
        let scaled := q.num.natAbs * (10 ^ k / q.den)
        let intPart := scaled / 10 ^ k
        let fracPart := scaled % 10 ^ k
        (if q.num < 0 then "-" else "") ++ toString intPart ++ "." ++
          padZeros (toString fracPart) k
    | none => toString q.num ++ "/" ++ toString q.den

/-- Join strings with a separator. -/
def joinSep (sep : String) : List String → String
  | [] => ""
  | [x] => x
  | x :: xs => x ++ sep ++ joinSep sep xs

/-- JavaScript string conversion (template-literal / `String(...)`
semantics): arrays join their elements with "," (null elements become
empty), objects print as "[object Object]".  Fuel-structural so it
reduces in the kernel; `sizeOf` bounds the depth. -/
def jsToStringFuel : Nat → JValue → String
  | _, .null => "null"
  | _, .bool b => if b then "true" else "false"
  | _, .num q => ratToString q
  | _, .str s => s
  | _, .obj _ => "[object Object]"
  | 0, .arr _ => ""
  | fuel + 1, .arr xs =>
      joinSep ","
        (xs.map fun x =>
          match x with
          | .null => ""
          | x' => jsToStringFuel fuel x')

/-- JavaScript string conversion of a value. -/
def jsToStringV (v : JValue) : String :=
  jsToStringFuel (v.size + 1) v

/-- String conversion where `none` is `undefined`. -/
def jsToStringO (v : Option JValue) : String :=
  match v with
  | none => "undefined"
  | some w => jsToStringV w

/-- Escape a string for JSON output. -/
def escapeJsonString (s : String) : String :=
  String.join (s.data.map fun c =>
    if c = '"' then "\\\""
    else if c = '\\' then "\\\\"
    else if c = '\n' then "\\n"
    else if c = '\r' then "\\r"
    else if c = '\t' then "\\t"
    else if c = '\x08' then "\\b"
    else if c = '\x0c' then "\\f"
    else if c.toNat < 32 then
      "\\u00" ++ String.mk [("0123456789abcdef".data.getD (c.toNat / 16) '0'),
                            ("0123456789abcdef".data.getD (c.toNat % 16) '0')]
    else String.mk [c])

/-- Model of `JSON.stringify` (fuel-structural). -/
def jsonStringifyFuel : Nat → JValue → String
  | _, .null => "null"
  | _, .bool b => if b then "true" else "false"
  | _, .num q => ratToString q
  | _, .str s => "\"" ++ escapeJsonString s ++ "\""
  | 0, _ => ""
  | fuel + 1, .arr xs =>
      "[" ++ joinSep "," (xs.map fun x => jsonStringifyFuel fuel x) ++ "]"
  | fuel + 1, .obj kvs =>
      "\x7b" ++
        joinSep ","
          (kvs.map fun kv =>
            "\"" ++ escapeJsonString kv.1 ++ "\":" ++ jsonStringifyFuel fuel kv.2) ++
        "\x7d"

/-- Model of `JSON.stringify` on a value. -/
def jsonStringify (v : JValue) : String :=
  jsonStringifyFuel (v.size + 1) v

/-! ### WHATWG URL model

The source calls the platform `URL` constructor in three places: to
test base-URL validity (`validateParsedDoc`), to take `origin` and
`pathname` of a request URL (`parsePostman`), and to take `origin` of a
matched URL (`parseHTML`).  This models the fragment of WHATWG URL
parsing those uses rely on: scheme parsing, authority/host/port for the
special schemes, origin serialization with default-port elision, and
opaque paths for non-special schemes.  Dot-segment normalization,
percent-encoding and IPv6 hosts are not modelled; no claim exercises
them. -/

/-- Parsed URL components used by the source. -/
structure UrlParts where
  scheme : String
  origin : String
  pathname : String
deriving Repr, DecidableEq

/-- First character of a URL scheme. -/
def isSchemeStartChar (c : Char) : Bool := c.isAlpha

/-- Subsequent characters of a URL scheme. -/
def isSchemeChar (c : Char) : Bool := c.isAlphanum || c == '+' || c == '-' || c == '.'

/-- The special schemes (with default ports) of the WHATWG standard,
minus `file`, which serializes its origin as "null" like the
non-special ones. -/
def specialSchemes : List (String × Nat) :=
  [("http", 80), ("https", 443), ("ws", 80), ("wss", 443), ("ftp", 21)]

/-- Drop everything up to and including the last '@' (userinfo). -/
def afterLastAt (cs : List Char) : List Char :=
  cs.foldl (fun acc c => if c = '@' then [] else acc ++ [c]) []

/-- Split an authority into host and optional port at the last colon. -/
def splitHostPort (cs : List Char) : List Char × Option (List Char) :=
  if cs.contains ':' then
    let rev := cs.reverse
    ((rev.dropWhile (· ≠ ':')).drop 1 |>.reverse, some ((rev.takeWhile (· ≠ ':')).reverse))
  else (cs, none)

/-- Serialized path of a special-scheme URL: up to the query/fragment,
backslashes normalized to slashes, defaulting to "/". -/
def urlPathOf (cs : List Char) : String :=
  let p := (cs.takeWhile fun c => c ≠ '?' ∧ c ≠ '#').map fun c => if c = '\\' then '/' else c
  if p = [] then "/" else String.mk p

/-- Model of the WHATWG `URL` constructor: `none` exactly when the
constructor throws. -/
def urlParse (input : String) : Option UrlParts :=
  let cs := (jsTrim input).data.filter fun c => ¬ (c = '\t' ∨ c = '\n' ∨ c = '\r')
  match cs with
  | c :: rest =>
      if isSchemeStartChar c then
        let (schemeChars, r₁) := rest.span isSchemeChar
        match r₁ with
        | ':' :: r₂ =>
            let scheme := String.mk ((c :: schemeChars).map Char.toLower)
            match specialSchemes.lookup scheme with
            | some defaultPort =>
                let r₃ := r₂.dropWhile fun ch => ch == '/' || ch == '\\'
                let (authority, r₄) := r₃.span fun ch =>
                  ¬ (ch = '/' ∨ ch = '?' ∨ ch = '#' ∨ ch = '\\')
                let hostPort := afterLastAt authority
                let (hostCs, portCs) := splitHostPort hostPort
                if hostCs = [] then none
                else if hostCs.any fun ch => isSpaceChar ch ∨ ch = '<' ∨ ch = '>' ∨
                    ch = '^' ∨ ch = '|' ∨ ch = '{' ∨ ch = '}' ∨ ch = '"' then none
                else
                  let host := String.mk (hostCs.map Char.toLower)
                  match portCs with
                  | none => some ⟨scheme, scheme ++ "://" ++ host, urlPathOf r₄⟩
                  | some [] => some ⟨scheme, scheme ++ "://" ++ host, urlPathOf r₄⟩
                  | some pcs =>
                      if pcs.all Char.isDigit then
                        let portN := digitsToNat pcs
                        if portN < 65536 then
                          let origin := scheme ++ "://" ++ host ++
                            (if portN = defaultPort then "" else ":" ++ toString portN)
                          some ⟨scheme, origin, urlPathOf r₄⟩
                        else none
                      else none
            | none =>
                -- non-special scheme: opaque path, origin serializes as "null"
                some ⟨scheme, "null", String.mk (r₂.takeWhile fun ch => ch ≠ '?' ∧ ch ≠ '#')⟩
        | _ => none
      else none
  | [] => none

/-- Whether the `URL` constructor accepts the string. -/
def urlCanParse (s : String) : Bool :=
  (urlParse s).isSome

/-! ### Data model (`types/api.ts`) and format detection -/

/-- Document classification (`DocType` in `types/api.ts`). -/
inductive DocType where
  | openapi : DocType
  | swagger : DocType
  | postman : DocType
  | html : DocType
  | unknown : DocType
deriving Repr, DecidableEq

/-- `detectDocType` on an already-decoded (non-string-branch) value:
the OpenAPI 3.x check (`content.openapi && content.openapi.startsWith('3')`),
the Swagger check (`content.swagger && content.swagger === '2.0'`), and
the Postman check (`content.info && content.item && content.info._postman_id`).
Property access on a `null` document and calling `.startsWith` on a
truthy non-string `openapi` field raise TypeErrors, as in JavaScript. -/
def detectStructured (content : JValue) : Except JSError DocType := do
  let openapi ← getFieldE content "openapi"
  let isOpenapi ←
    if truthyO openapi then
      match openapi with
      | some (.str s) => pure (strStartsWith s "3")
      | some _ => Except.error .typeError
      | none => pure false
    else pure false
  if isOpenapi then return .openapi
  let swagger ← getFieldE content "swagger"
  let isSwagger :=
    truthyO swagger &&
      (match swagger with
       | some (.str s) => decide (s = "2.0")
       | _ => false)
  if isSwagger then return .swagger
  let info ← getFieldE content "info"
  let item ← getFieldE content "item"
  let isPostman :=
    truthyO info && truthyO item &&
      (match info with
       | some iv => truthyO (getFieldV iv "_postman_id")
       | none => false)
  if isPostman then return .postman
  return .unknown

/-- `detectDocType` (api-parser.ts:18-43): a string input is
`JSON.parse`d first, classifying as `html` on decode failure; then the
structural checks run on the decoded value. -/
def detectDocType (content : JValue) : Except JSError DocType :=
  match content with
  | .str s =>
      (match jsonParse s with
       | none => .ok .html
       | some v => detectStructured v)
  | v => detectStructured v

/-- A normalized parameter (`Parameter` in `types/api.ts`).  Field
values are dynamic: the extractors copy them from the source document
without validation. -/
structure Parameter where
  name : Option JValue
  «in» : Option JValue
  required : JValue
  type : Option JValue
  description : Option JValue
  schema : Option JValue

/-- A normalized endpoint (`ApiEndpoint` in `types/api.ts`).  `method`
is the runtime string the extractor produced (the TS declaration
asserts the seven-value `HttpMethod` union via an unchecked cast);
absent optional fields are `none`. -/
structure ApiEndpoint where
  method : String
  path : JValue
  summary : Option JValue
  description : Option JValue
  parameters : Option (List Parameter)
  requestBody : Option JValue
  responses : Option JValue
  operationId : Option JValue
  tags : Option JValue
  requiresAuth : Option Bool

/-- Document metadata of `ParsedDocumentation`. -/
structure DocMetadata where
  title : Option JValue
  version : Option JValue
  description : Option JValue
  sourceType : String

/-- `ParsedDocumentation` of `types/api.ts`.  `baseUrl` is declared as
a string but at runtime carries whatever value the extractor assigned
(`none` models `undefined`). -/
structure ParsedDocumentation where
  baseUrl : Option JValue
  endpoints : List ApiEndpoint
  metadata : DocMetadata

/-- `ParserOptions` of `types/api.ts`; all fields optional. -/
structure ParserOptions where
  maxEndpoints : Option Nat := none
  includeDeprecated : Option Bool := none
  includeTags : Option (List String) := none
  excludeTags : Option (List String) := none

/-- `DEFAULT_PARSER_OPTIONS` (api-parser.ts:8-13). -/
def DEFAULT_PARSER_OPTIONS : ParserOptions :=
  { maxEndpoints := some 200
    includeDeprecated := some false
    includeTags := some []
    excludeTags := some [] }

/-! ### Object.entries ordering -/

/-- A canonical array-index property key ("0", or digits without a
leading zero, below 2^32 - 1): JavaScript orders these first. -/
def arrayIndexKey (s : String) : Option Nat :=
  match s.data with
  | [] => none
  | c :: restCs =>
      if c = '0' then (if restCs = [] then some 0 else none)
      else if (c :: restCs).all Char.isDigit then
        let n := digitsToNat (c :: restCs)
        if n < 4294967295 then some n else none
      else none

/-- Stable insertion by a numeric key. -/
def insertByKey {α : Type} (f : α → Nat) (x : α) : List α → List α
  | [] => [x]
  | y :: ys => if f x < f y then x :: y :: ys else y :: insertByKey f x ys

/-- Stable insertion sort by a numeric key. -/
def insertionSortBy {α : Type} (f : α → Nat) : List α → List α
  | [] => []
  | x :: xs => insertByKey f x (insertionSortBy f xs)

/-- JavaScript own-property enumeration order for string-keyed records:
array-index keys first in ascending numeric order, then the remaining
keys in insertion order. -/
def recordEntriesOrder {α : Type} (kvs : List (String × α)) : List (String × α) :=
  insertionSortBy (fun kv => (arrayIndexKey kv.1).getD 0)
      (kvs.filter fun kv => (arrayIndexKey kv.1).isSome) ++
    kvs.filter fun kv => (arrayIndexKey kv.1).isNone

/-- `Object.entries` on a runtime value: object properties in JS
enumeration order, array/string indices, and `[]` for primitives. -/
def jsEntries : JValue → List (String × JValue)
  | .obj kvs => recordEntriesOrder kvs
  | .arr xs => (xs.enum.map fun p => (toString p.1, p.2))
  | .str s => (s.data.enum.map fun p => (toString p.1, JValue.str (String.mk [p.2])))
  | _ => []

/-! ### OpenAPI 3.x and Swagger 2.0 extractors (api-parser.ts:48-229) -/

/-- The fixed method iteration order of both extractors. -/
def openAPIMethods : List String :=
  ["get", "post", "put", "patch", "delete", "head", "options"]

/-- The `options.maxEndpoints && endpoints.length >= options.maxEndpoints`
cutoff test (`0` and `undefined` are falsy, disabling the cap). -/
def maxReached (opts : ParserOptions) (n : Nat) : Bool :=
  match opts.maxEndpoints with
  | none => false
  | some m => if m = 0 then false else decide (m ≤ n)

/-- `options.includeTags?.includes(tag)` for a dynamic tag value:
strict equality against the configured strings. -/
def tagInList (t : JValue) (l : List String) : Bool :=
  match t with
  | .str s => l.contains s
  | _ => false

/-- `operation.tags?.some(tag => list.includes(tag))`: `none` when
`tags` is null/undefined (the optional chain yields undefined), a
TypeError when `tags` is a truthy non-array (calling undefined `.some`). -/
def jsSomeTags (tags : Option JValue) (l : List String) : Except JSError (Option Bool) :=
  match tags with
  | none => .ok none
  | some .null => .ok none
  | some (.arr xs) => .ok (some (xs.any fun t => tagInList t l))
  | some _ => .error .typeError

/-- `x && x.length > 0` on a security field: `.length` exists on arrays
and strings, is undefined otherwise (and `undefined > 0` is false). -/
def secNonEmptyB (sec : Option JValue) : Bool :=
  truthyO sec &&
    (match sec with
     | some (.arr xs) => decide (0 < xs.length)
     | some (.str s) => decide (0 < s.length)
     | _ => false)

/-- The deprecated/includeTags/excludeTags skip tests of both
extractors (api-parser.ts:64-78 and 159-173), in source order;
`true` means the operation is skipped. -/
def opFilterSkip (opts : ParserOptions) (operation : JValue) : Except JSError Bool := do
  if truthyO (getFieldV operation "deprecated") && !(opts.includeDeprecated.getD false) then
    return true
  let skipInc ←
    match opts.includeTags with
    | some l =>
        if 0 < l.length then do
          let hasTags ← jsSomeTags (getFieldV operation "tags") l
          pure (decide (hasTags ≠ some true))
        else pure false
    | none => pure false
  if skipInc then return true
  let skipExc ←
    match opts.excludeTags with
    | some l =>
        if 0 < l.length then do
          let hasExcludedTag ← jsSomeTags (getFieldV operation "tags") l
          pure (decide (hasExcludedTag = some true))
        else pure false
    | none => pure false
  return skipExc

/-- `param.required || false`. -/
def requiredOrFalse (param : JValue) : JValue :=
  match getFieldV param "required" with
  | some rv => if truthyV rv then rv else .bool false
  | none => .bool false

/-- Build one OpenAPI parameter (api-parser.ts:85-92): `type` comes
from `param.schema?.type`.  Accessing a `null` array element throws. -/
def mkOpenAPIParam (param : JValue) : Except JSError Parameter := do
  let name ← getFieldE param "name"
  let inLoc ← getFieldE param "in"
  let schemaF := getFieldV param "schema"
  pure
    { name := name
      «in» := inLoc
      required := requiredOrFalse param
      type := optChain schemaF "type"
      description := getFieldV param "description"
      schema := schemaF }

/-- Build one Swagger parameter (api-parser.ts:180-187): `type` is
`param.type || param.schema?.type`. -/
def mkSwaggerParam (param : JValue) : Except JSError Parameter := do
  let name ← getFieldE param "name"
  let inLoc ← getFieldE param "in"
  let schemaF := getFieldV param "schema"
  let typeF :=
    match getFieldV param "type" with
    | some tv => if truthyV tv then some tv else optChain schemaF "type"
    | none => optChain schemaF "type"
  pure
    { name := name
      «in» := inLoc
      required := requiredOrFalse param
      type := typeF
      description := getFieldV param "description"
      schema := schemaF }

/-- `if (operation.parameters) { operation.parameters.forEach(...) }`:
absent/falsy yields the empty list, a truthy non-array throws
(`.forEach` is undefined there). -/
def collectParams
    (mk : JValue → Except JSError Parameter) (operation : JValue) :
    Except JSError (List Parameter) := do
  let ps ← getFieldE operation "parameters"
  if truthyO ps then
    match ps with
    | some (.arr xs) => xs.mapM mk
    | _ => .error .typeError
  else pure []

/-- Emit one OpenAPI endpoint (api-parser.ts:80-110): parameters, the
`requiresAuth` disjunction of operation-level and document-level
security, and the verbatim field copies. -/
def mkOpenAPIEndpoint (doc : JValue) (path m : String) (operation : JValue) :
    Except JSError ApiEndpoint := do
  let parameters ← collectParams mkOpenAPIParam operation
  let opSec ← getFieldE operation "security"
  let docSec ← getFieldE doc "security"
  let requiresAuth := secNonEmptyB opSec || secNonEmptyB docSec
  pure
    { method := strToUpper m
      path := .str path
      summary := getFieldV operation "summary"
      description := getFieldV operation "description"
      parameters := some parameters
      requestBody := getFieldV operation "requestBody"
      responses := getFieldV operation "responses"
      operationId := getFieldV operation "operationId"
      tags := getFieldV operation "tags"
      requiresAuth := some requiresAuth }

/-- Emit one Swagger endpoint (api-parser.ts:175-204): same shape, the
Swagger parameter `type` fallback, and no `requestBody` field. -/
def mkSwaggerEndpoint (doc : JValue) (path m : String) (operation : JValue) :
    Except JSError ApiEndpoint := do
  let parameters ← collectParams mkSwaggerParam operation
  let opSec ← getFieldE operation "security"
  let docSec ← getFieldE doc "security"
  let requiresAuth := secNonEmptyB opSec || secNonEmptyB docSec
  pure
    { method := strToUpper m
      path := .str path
      summary := getFieldV operation "summary"
      description := getFieldV operation "description"
      parameters := some parameters
      requestBody := none
      responses := getFieldV operation "responses"
      operationId := getFieldV operation "operationId"
      tags := getFieldV operation "tags"
      requiresAuth := some requiresAuth }

/-- The inner `for (const method of methods)` loop shared by the
OpenAPI and Swagger extractors: skip missing/falsy operations, apply
the filters, emit via `emit`, and `break` (return the accumulator) when
`maxEndpoints` is reached right after a push. -/
def methodsLoop (opts : ParserOptions)
    (emit : String → String → JValue → Except JSError ApiEndpoint)
    (path : String) (pathItem : JValue) :
    List String → List ApiEndpoint → Except JSError (List ApiEndpoint)
  | [], acc => .ok acc
  | m :: rest, acc => do
      let operationF ← getFieldE pathItem m
      match operationF with
      | none => methodsLoop opts emit path pathItem rest acc
      | some operation =>
          if truthyV operation then do
            let skip ← opFilterSkip opts operation
            if skip then methodsLoop opts emit path pathItem rest acc
            else do
              let e ← emit path m operation
              let acc' := acc ++ [e]
              if maxReached opts acc'.length then .ok acc'
              else methodsLoop opts emit path pathItem rest acc'
          else methodsLoop opts emit path pathItem rest acc

/-- The outer `for (const [path, pathItem] of Object.entries(doc.paths))`
loop: run the method loop, then `break` when `maxEndpoints` is
reached. -/
def pathsLoop (opts : ParserOptions)
    (emit : String → String → JValue → Except JSError ApiEndpoint) :
    List (String × JValue) → List ApiEndpoint → Except JSError (List ApiEndpoint)
  | [], acc => .ok acc
  | (path, pathItem) :: rest, acc => do
      let acc' ← methodsLoop opts emit path pathItem openAPIMethods acc
      if maxReached opts acc'.length then .ok acc'
      else pathsLoop opts emit rest acc'

/-- `parseOpenAPI` (api-parser.ts:48-136). -/
def parseOpenAPI (doc : JValue) (options : ParserOptions) :
    Except JSError ParsedDocumentation := do
  -- const baseUrl = doc.servers?.[0]?.url || 'https://api.example.com'
  let servers ← getFieldE doc "servers"
  let urlF : Option JValue :=
    match servers with
    | none => none
    | some .null => none
    | some sv =>
        match jsIndex0 sv with
        | none => none
        | some .null => none
        | some s0 => getFieldV s0 "url"
  let baseUrl := jsOr urlF (.str "https://api.example.com")
  let pathsF ← getFieldE doc "paths"
  let endpoints ←
    if truthyO pathsF then
      pathsLoop options (mkOpenAPIEndpoint doc) (jsEntries (pathsF.getD .null)) []
    else pure []
  let infoF := getFieldV doc "info"
  pure
    { baseUrl := some baseUrl
      endpoints := endpoints
      metadata :=
        { title := optChain infoF "title"
          version := optChain infoF "version"
          description := optChain infoF "description"
          sourceType := "openapi" } }

/-- `parseSwagger` (api-parser.ts:141-229): base URL assembled from
`scheme://host + basePath` with defaults. -/
def parseSwagger (doc : JValue) (options : ParserOptions) :
    Except JSError ParsedDocumentation := do
  let schemesF ← getFieldE doc "schemes"
  let scheme : JValue :=
    jsOr
      (match schemesF with
       | none => none
       | some .null => none
       | some sv => jsIndex0 sv)
      (.str "https")
  let hostF ← getFieldE doc "host"
  let host := jsOr hostF (.str "api.example.com")
  let basePathF ← getFieldE doc "basePath"
  let basePath := jsOr basePathF (.str "")
  let baseUrl : JValue :=
    .str (jsToStringV scheme ++ "://" ++ jsToStringV host ++ jsToStringV basePath)
  let pathsF ← getFieldE doc "paths"
  let endpoints ←
    if truthyO pathsF then
      pathsLoop options (mkSwaggerEndpoint doc) (jsEntries (pathsF.getD .null)) []
    else pure []
  let infoF := getFieldV doc "info"
  pure
    { baseUrl := some baseUrl
      endpoints := endpoints
      metadata :=
        { title := optChain infoF "title"
          version := optChain infoF "version"
          description := optChain infoF "description"
          sourceType := "swagger" } }

/-! ### Postman collection extractor (api-parser.ts:234-349) -/

/-- Mutable state of `parsePostman`'s traversal: the shared `baseUrl`
variable (`none` models `undefined`) and the `endpoints` accumulator. -/
structure PostmanState where
  baseUrl : Option JValue
  endpoints : List ApiEndpoint

/-- `collection.variable.find(v => v.key === 'baseUrl' || v.key ===
'base_url' || v.key === 'url')`: testing `v.key` throws for a null
element. -/
def postmanFindBaseVar : List JValue → Except JSError (Option JValue)
  | [] => .ok none
  | v :: rest => do
      let keyF ← getFieldE v "key"
      let isMatch :=
        match keyF with
        | some (.str s) => decide (s = "baseUrl" ∨ s = "base_url" ∨ s = "url")
        | _ => false
      if isMatch then pure (some v) else postmanFindBaseVar rest

/-- Collect non-disabled header/query entries as parameters
(api-parser.ts:282-309): `entry.disabled` is tested first (throwing on
null entries), then `key` and `description` are copied with the fixed
location and string type. -/
def postmanEntryParams (loc : String) : List JValue → Except JSError (List Parameter)
  | [] => .ok []
  | h :: rest => do
      let disabledF ← getFieldE h "disabled"
      let here ←
        if truthyO disabledF then pure ([] : List Parameter)
        else
          pure [{ name := getFieldV h "key"
                  «in» := some (.str loc)
                  required := .bool false
                  type := some (.str "string")
                  description := getFieldV h "description"
                  schema := none }]
      let tail ← postmanEntryParams loc rest
      pure (here ++ tail)

/-- Process one request leaf (api-parser.ts:251-324): method default
and uppercasing (throwing on truthy non-string methods), URL
extraction, `new URL` path/origin handling with its first-wins base-URL
update, header and query parameters, the endpoint push, and the
`maxEndpoints` check whose `return` only skips the recursion into this
item's children.  Returns the updated state and that early-return flag. -/
def postmanProcessRequest (opts : ParserOptions) (item request parentPath : JValue)
    (st : PostmanState) : Except JSError (PostmanState × Bool) := do
  let method ←
    match request with
    | .str _ => pure "GET"
    | _ =>
        match getFieldV request "method" with
        | some mv =>
            if truthyV mv then
              match mv with
              | .str s => pure (strToUpper s)
              | _ => Except.error .typeError
            else pure "GET"
        | none => pure "GET"
  let urlF := getFieldV request "url"
  let url : JValue :=
    match urlF with
    | some (.str s) => .str s
    | some uv =>
        if truthyV uv then
          match getFieldV uv "raw" with
          | some rv => if truthyV rv then rv else .str ""
          | none => .str ""
        else .str ""
    | none => .str ""
  let (path, baseUrl') :=
    match urlParse (jsToStringV url) with
    | some u =>
        let isPlaceholder :=
          match st.baseUrl with
          | some (.str s) => decide (s = "https://api.example.com")
          | _ => false
        if isPlaceholder ∧ u.origin ≠ "" then (JValue.str u.pathname, some (JValue.str u.origin))
        else (JValue.str u.pathname, st.baseUrl)
    | none => (url, st.baseUrl)
  let headerParams ← do
    let headerF := getFieldV request "header"
    if truthyO headerF then
      match headerF with
      | some (.arr hs) => postmanEntryParams "header" hs
      | _ => Except.error .typeError
    else pure []
  let queryParams ← do
    match urlF with
    | some uv =>
        if truthyV uv then do
          let queryF := getFieldV uv "query"
          if truthyO queryF then
            match queryF with
            | some (.arr qs) => postmanEntryParams "query" qs
            | _ => Except.error .typeError
          else pure []
        else pure []
    | none => pure []
  let description :=
    match getFieldV request "description" with
    | some dv => if truthyV dv then some dv else getFieldV item "description"
    | none => getFieldV item "description"
  let endpoint : ApiEndpoint :=
    { method := method
      path := path
      summary := getFieldV item "name"
      description := description
      parameters := some (headerParams ++ queryParams)
      requestBody := none
      responses := none
      operationId := none
      tags := if truthyV parentPath then some (.arr [parentPath]) else none
      requiresAuth := none }
  let endpoints' := st.endpoints ++ [endpoint]
  pure (⟨baseUrl', endpoints'⟩, maxReached opts endpoints'.length)

/-- `parseItems` (api-parser.ts:248-333), the recursive `forEach` over
the item tree.  The fuel makes the recursion structural; every call
site supplies `JValue.size` of the whole collection plus one, which
dominates the item count, so exhaustion (mapped to a TypeError) is
unreachable.  When the early-return flag is set the children of the
current item are skipped, but — exactly as the source's `return` inside
a `forEach` callback — traversal continues with the remaining
siblings. -/
def parsePostmanItems (opts : ParserOptions) :
    Nat → List JValue → JValue → PostmanState → Except JSError PostmanState
  | _, [], _, st => .ok st
  | 0, _ :: _, _, _ => .error .typeError
  | fuel + 1, item :: rest, parentPath, st => do
      let requestF ← getFieldE item "request"
      let (st₁, earlyReturn) ←
        if truthyO requestF then
          match requestF with
          | some request => postmanProcessRequest opts item request parentPath st
          | none => pure (st, false)
        else pure (st, false)
      let st₂ ←
        if earlyReturn then pure st₁
        else
          match getFieldV item "item" with
          | some (.arr xs) =>
              let folderName :=
                match getFieldV item "name" with
                | some nv => if truthyV nv then nv else parentPath
                | none => parentPath
              parsePostmanItems opts fuel xs folderName st₁
          | _ => pure st₁
      parsePostmanItems opts fuel rest parentPath st₂

/-- `parsePostman` (api-parser.ts:234-349). -/
def parsePostman (collection : JValue) (options : ParserOptions) :
    Except JSError ParsedDocumentation := do
  let variableF ← getFieldE collection "variable"
  let baseUrl₀ ←
    if truthyO variableF then
      match variableF with
      | some (.arr vs) => do
          let found ← postmanFindBaseVar vs
          match found with
          | some v => getFieldE v "value"
          | none => pure (some (.str "https://api.example.com"))
      | _ => Except.error .typeError
    else pure (some (.str "https://api.example.com"))
  let itemF := getFieldV collection "item"
  let finalSt ←
    if truthyO itemF then
      match itemF with
      | some (.arr items) =>
          parsePostmanItems options (collection.size + 1) items (.str "") ⟨baseUrl₀, []⟩
      | _ => Except.error .typeError
    else pure (⟨baseUrl₀, []⟩ : PostmanState)
  let infoF := getFieldV collection "info"
  pure
    { baseUrl := finalSt.baseUrl
      endpoints := finalSt.endpoints
      metadata :=
        { title := optChain infoF "name"
          version := optChain infoF "version"
          description := optChain infoF "description"
          sourceType := "postman" } }

/-! ### HTML heuristic extractor (api-parser.ts:354-417)

The three regular expressions of `parseHTML` are hand-compiled to
scanners with JavaScript match semantics (leftmost match, greedy
character classes, ordered alternation with backtracking over the
optional groups, global scan resuming after each match). -/

/-- `\w` of JavaScript regexes (ASCII word characters). -/
def isWordChar (c : Char) : Bool := c.isAlphanum || c == '_'

/-- Try `https?:\/\/[\w\-.]+(:\d+)?(\/[^\s"'<>]*)?` at the head of the
input; returns the matched characters and the rest. -/
def tryUrlAt (cs : List Char) : Option (List Char × List Char) :=
  match cs with
  | 'h' :: 't' :: 't' :: 'p' :: r₀ =>
      let (m₀, r₁) :=
        match r₀ with
        | 's' :: rr => (['h', 't', 't', 'p', 's'], rr)
        | _ => (['h', 't', 't', 'p'], r₀)
      (match r₁ with
       | ':' :: '/' :: '/' :: r₂ =>
           let (hostCs, r₃) := r₂.span fun c => isWordChar c || c == '-' || c == '.'
           if hostCs = [] then none
           else
             let (portCs, r₄) :=
               match r₃ with
               | ':' :: rr =>
                   let (ds, rrr) := rr.span Char.isDigit
                   if ds = [] then (([] : List Char), r₃) else (':' :: ds, rrr)
               | _ => ([], r₃)
             let (pathCs, r₅) :=
               match r₄ with
               | '/' :: rr =>
                   let (ps, rrr) := rr.span fun c =>
                     !(isSpaceChar c) && c != '"' && c != '\'' && c != '<' && c != '>'
                   ('/' :: ps, rrr)
               | _ => ([], r₄)
             some (m₀ ++ [':', '/', '/'] ++ hostCs ++ portCs ++ pathCs, r₅)
       | _ => none)
  | _ => none

/-- `html.match(/https?:...url.../)`: the first (leftmost) match. -/
def firstUrlMatch (s : String) : Option String :=
  go s.data
where
  go : List Char → Option String
    | [] => none
    | c :: rest =>
        match tryUrlAt (c :: rest) with
        | some (m, _) => some (String.mk m)
        | none => go rest

/-- Characters of `[\w\-]`. -/
def isWordDash (c : Char) : Bool := isWordChar c || c == '-'

/-- The optional trailing `(?:\/\{[\w\-]+\})?` group. -/
def epTrailing (cs : List Char) : List Char × List Char :=
  match cs with
  | '/' :: '{' :: r =>
      let (w, r') := r.span isWordDash
      (match w, r' with
       | _ :: _, '}' :: r'' => ('/' :: '{' :: (w ++ ['}']), r'')
       | _, _ => ([], cs))
  | _ => ([], cs)

/-- The mandatory `[\w\-]+` segment plus the optional trailing group. -/
def epCore (cs : List Char) : Option (List Char × List Char) :=
  let (w, r) := cs.span isWordDash
  match w with
  | [] => none
  | _ =>
      let (t, r') := epTrailing r
      some (w ++ t, r')

/-- The optional `(?:v\d+\/)?` group (greedy, with backtracking when
the rest of the pattern fails after taking it). -/
def epAfterV (cs : List Char) : Option (List Char × List Char) :=
  match cs with
  | 'v' :: r =>
      let (ds, r') := r.span Char.isDigit
      (match ds, r' with
       | _ :: _, '/' :: r'' =>
           (match epCore r'' with
            | some (m, rr) => some (('v' :: ds) ++ ('/' :: m), rr)
            | none => epCore cs)
       | _, _ => epCore cs)
  | _ => epCore cs

/-- Try `\/(?:api\/)?(?:v\d+\/)?[\w\-]+(?:\/\{[\w\-]+\})?` at the head
of the input. -/
def tryEndpointAt (cs : List Char) : Option (List Char × List Char) :=
  match cs with
  | '/' :: r =>
      (match r with
       | 'a' :: 'p' :: 'i' :: '/' :: r₁ =>
           (match epAfterV r₁ with
            | some (m, rr) => some ('/' :: 'a' :: 'p' :: 'i' :: '/' :: m, rr)
            | none => (epAfterV r).map fun p => ('/' :: p.1, p.2))
       | _ => (epAfterV r).map fun p => ('/' :: p.1, p.2))
  | _ => none

/-- `html.match(/...endpoint.../g)`: all matches, scanning left to
right and resuming after each match. -/
def endpointMatches (s : String) : List String :=
  go (s.length + 1) s.data
where
  go : Nat → List Char → List String
    | 0, _ => []
    | _, [] => []
    | fuel + 1, c :: rest =>
        match tryEndpointAt (c :: rest) with
        | some (m, r) => String.mk m :: go fuel r
        | none => go fuel rest

/-- The alternation order of the method pattern. -/
def httpMethodAlts : List String :=
  ["GET", "POST", "PUT", "PATCH", "DELETE", "HEAD", "OPTIONS"]

/-- Case-insensitive literal prefix match, returning the original
input characters that matched and the rest. -/
def matchPrefixCI : List Char → List Char → Option (List Char × List Char)
  | [], cs => some ([], cs)
  | _ :: _, [] => none
  | p :: ps, c :: cs =>
      if c.toLower = p.toLower then
        (matchPrefixCI ps cs).map fun q => (c :: q.1, q.2)
      else none

/-- Characters of the captured path `[\/\w\-{}]+`. -/
def isPathTokenChar (c : Char) : Bool :=
  isWordChar c || c == '-' || c == '/' || c == '{' || c == '}'

/-- Try `(GET|POST|PUT|PATCH|DELETE|HEAD|OPTIONS)\s+([\/\w\-{}]+)` at
the head of the input (case-insensitive), returning the two captures. -/
def tryMethodAt (cs : List Char) : Option ((String × String) × List Char) :=
  goAlts httpMethodAlts
where
  goAlts : List String → Option ((String × String) × List Char)
    | [] => none
    | alt :: alts =>
        match matchPrefixCI alt.data cs with
        | some (mcs, r₁) =>
            let (ws, r₂) := r₁.span isSpaceChar
            (match ws with
             | [] => goAlts alts
             | _ =>
                 let (pcs, r₃) := r₂.span isPathTokenChar
                 match pcs with
                 | [] => goAlts alts
                 | _ => some ((String.mk mcs, String.mk pcs), r₃))
        | none => goAlts alts

/-- The `while ((methodMatch = methodPattern.exec(html)) !== null)`
loop: all (method, path) capture pairs in order. -/
def methodMatches (s : String) : List (String × String) :=
  go (s.length + 1) s.data
where
  go : Nat → List Char → List (String × String)
    | 0, _ => []
    | _, [] => []
    | fuel + 1, c :: rest =>
        match tryMethodAt (c :: rest) with
        | some (mp, r) => mp :: go fuel r
        | none => go fuel rest

/-- Deduplicate keeping first occurrences (the insertion-ordered `Set`
of `parseHTML`). -/
def dedupKeepFirst : List String → List String :=
  go []
where
  go (seen : List String) : List String → List String
    | [] => []
    | x :: xs => if seen.contains x then go seen xs else x :: go (x :: seen) xs

/-- An HTML-extracted endpoint carries only method, path and summary. -/
def mkHTMLEndpoint (method path summary : String) : ApiEndpoint :=
  { method := method
    path := .str path
    summary := some (.str summary)
    description := none
    parameters := none
    requestBody := none
    responses := none
    operationId := none
    tags := none
    requiresAuth := none }

/-- `parseHTML` (api-parser.ts:354-417): base URL from the first URL
match's origin (or the match itself if `new URL` rejects it, or the
placeholder), endpoints from the method pattern followed by the
leftover unique paths while under 50, and a final cap of 50. -/
def parseHTML (html : String) : ParsedDocumentation :=
  let baseUrl : String :=
    match firstUrlMatch html with
    | some m =>
        (match urlParse m with
         | some u => u.origin
         | none => m)
    | none => "https://api.example.com"
  let uniquePaths :=
    dedupKeepFirst ((endpointMatches html).filter fun m =>
      decide (2 < m.length) && decide (m.length < 100))
  let methodEps := methodMatches html
  let endpoints₁ := methodEps.map fun mp =>
    mkHTMLEndpoint (strToUpper mp.1) (jsTrim mp.2) (mp.1 ++ " " ++ mp.2)
  let remaining := uniquePaths.filter fun p =>
    !((methodEps.map fun mp => jsTrim mp.2).contains p)
  let endpoints₂ := remaining.foldl
    (fun acc p =>
      if acc.length < 50 then acc ++ [mkHTMLEndpoint "GET" p ("GET " ++ p)] else acc)
    endpoints₁
  { baseUrl := some (.str baseUrl)
    endpoints := endpoints₂.take 50
    metadata :=
      { title := some (.str "Parsed from HTML")
        version := none
        description := none
        sourceType := "html" } }

/-! ### Main dispatch (api-parser.ts:422-457) and validator (462-483) -/

/-- Failures of `parseApiDocumentation`: the `Unsupported document
type` error of the default switch branch, or a TypeError escaping the
detector/extractors. -/
inductive ParseError where
  | typeError : ParseError
  | unsupportedFormat : ParseError
deriving Repr, DecidableEq

/-- Re-raise a JS TypeError as a parse failure. -/
def liftJS {α : Type} : Except JSError α → Except ParseError α
  | .ok a => .ok a
  | .error .typeError => .error .typeError

/-- Dispatch on the detected type of the decoded document
(api-parser.ts:437-456); `content` is the original argument, used by
the `html` branch. -/
def parseDetected (content doc : JValue) (options : ParserOptions) :
    Except ParseError ParsedDocumentation := do
  let docType ← liftJS (detectDocType doc)
  match docType with
  | .openapi => liftJS (parseOpenAPI doc options)
  | .swagger => liftJS (parseSwagger doc options)
  | .postman => liftJS (parsePostman doc options)
  | .html =>
      .ok (parseHTML (match content with
        | .str s => s
        | other => jsonStringify other))
  | .unknown => .error .unsupportedFormat

/-- `parseApiDocumentation` (api-parser.ts:422-457): string input is
JSON-decoded, falling back to the HTML extractor when decoding fails;
otherwise the detected extractor runs on the decoded document. -/
def parseApiDocumentation (content : JValue) (options : ParserOptions) :
    Except ParseError ParsedDocumentation :=
  match content with
  | .str s =>
      (match jsonParse s with
       | none => .ok (parseHTML s)
       | some doc => parseDetected content doc options)
  | doc => parseDetected content doc options

/-- Result of `validateParsedDoc`. -/
structure ValidationResult where
  valid : Bool
  errors : List String
deriving Repr, DecidableEq

/-- `validateParsedDoc` (api-parser.ts:462-483): the three checks run
unconditionally, each appending its own error string; `new URL` is
modelled by `urlCanParse` of the stringified base URL. -/
def validateParsedDoc (parsed : ParsedDocumentation) : ValidationResult :=
  let errors₁ := if !(truthyO parsed.baseUrl) then ["Missing base URL"] else []
  let errors₂ := errors₁ ++
    (if parsed.endpoints.length = 0 then ["No endpoints found"] else [])
  let errors₃ := errors₂ ++
    (if urlCanParse (jsToStringO parsed.baseUrl) then [] else ["Invalid base URL format"])
  { valid := decide (errors₃.length = 0), errors := errors₃ }

/-! ### Context injection formatter (the `formatContextForAI` module)
and the `ai-utils.ts` token estimator -/

/-- `ApiContext` of `types/api.ts`, restricted to the fields the
formatter reads (`name`, `baseUrl`, `description`, `endpoints`); the
identity/provenance/timestamp fields are never consulted by these
functions. -/
structure ApiContext where
  name : String
  baseUrl : String
  description : Option String := none
  endpoints : List ApiEndpoint

/-- `MAX_ENDPOINTS_TO_INJECT`. -/
def MAX_ENDPOINTS_TO_INJECT : Nat := 50

/-- `formatEndpointForAI` (part_007:13-30): `METHOD path`, an optional
` - summary`, and the required parameter names (`required.map(p =>
p.name).join(', ')`, where null/undefined names join as empty). -/
def formatEndpointForAI (endpoint : ApiEndpoint) : String :=
  let summary := endpoint.method ++ " " ++ jsToStringV endpoint.path
  let summary :=
    match endpoint.summary with
    | some sv => if truthyV sv then summary ++ " - " ++ jsToStringV sv else summary
    | none => summary
  match endpoint.parameters with
  | some ps =>
      let required := ps.filter fun p => truthyV p.required
      if 0 < required.length then
        summary ++ " (requires: " ++
          joinSep ", " (required.map fun p =>
            match p.name with
            | none => ""
            | some .null => ""
            | some v => jsToStringV v) ++ ")"
      else summary
  | none => summary

/-- The group key `endpoint.tags?.[0] || 'Other'`, converted to the
string property key it becomes in the `grouped` record. -/
def endpointGroupKey (e : ApiEndpoint) : String :=
  let t : Option JValue :=
    match e.tags with
    | none => none
    | some .null => none
    | some tv => jsIndex0 tv
  match t with
  | some v => if truthyV v then jsToStringV v else "Other"
  | none => "Other"

/-- Append an endpoint to its group, creating the group at the end on
first sight (JS record insertion). -/
def groupInsert (groups : List (String × List ApiEndpoint)) (key : String)
    (e : ApiEndpoint) : List (String × List ApiEndpoint) :=
  match groups with
  | [] => [(key, [e])]
  | (k, es) :: rest =>
      if k = key then (k, es ++ [e]) :: rest
      else (k, es) :: groupInsert rest key e

/-- `formatContextForAI` (part_007:35-70): header lines, optional
description, the endpoint count line, the endpoints grouped by first
tag in `Object.entries` order, and the fixed instruction paragraph. -/
def formatContextForAI (context : ApiContext) : String :=
  let endpoints := context.endpoints.take MAX_ENDPOINTS_TO_INJECT
  let prompt := "\n\nAPI CONTEXT LOADED:\n"
  let prompt := prompt ++ "API Name: " ++ context.name ++ "\n"
  let prompt := prompt ++ "Base URL: " ++ context.baseUrl ++ "\n"
  let prompt := prompt ++
    (match context.description with
     | some d => if d ≠ "" then "Description: " ++ d ++ "\n" else ""
     | none => "")
  let prompt := prompt ++ "\nAvailable Endpoints (" ++ toString endpoints.length ++
    " of " ++ toString context.endpoints.length ++ "):\n"
  let grouped := recordEntriesOrder
    (endpoints.foldl (fun gs e => groupInsert gs (endpointGroupKey e) e) [])
  let prompt := prompt ++ String.join (grouped.map fun g =>
    "\n[" ++ g.1 ++ "]\n" ++
      String.join (g.2.map fun e => "  • " ++ formatEndpointForAI e ++ "\n"))
  prompt ++
    "\nIMPORTANT: When generating API requests, you MUST use only the endpoints listed above. " ++
    "Always construct full URLs by combining the base URL with the endpoint path. " ++
    "If a required parameter is mentioned, include it in the request.\n"

/-- `estimateTokenCount` (ai-utils.ts:177-180): `Math.ceil(text.length
/ 4)`, written on naturals as `(length + 3) / 4` (proved equal to the
rational ceiling below). -/
def estimateTokenCount (text : String) : Nat :=
  (text.length + 3) / 4

/-- `estimateContextTokens` (part_007:150-153):
`Math.ceil(formatContextForAI(context).length / 4)`. -/
def estimateContextTokens (context : ApiContext) : Nat :=
  ((formatContextForAI context).length + 3) / 4

/-- `isContextTooLarge` (part_007:158-160); the source defaults
`maxTokens` to 2000. -/
def isContextTooLarge (context : ApiContext) (maxTokens : Nat) : Bool :=
  decide (maxTokens < estimateContextTokens context)

/-! ### Predicates and concrete inputs used by the claim theorems -/

/-- Whether a value declares a non-empty `security` requirement, i.e.
the `x.security && x.security.length > 0` test of the extractors. -/
def securityNonEmpty (v : JValue) : Bool :=
  secNonEmptyB (getFieldV v "security")

/-- The endpoint carries the given tag: its `tags` field is an array
containing that string. -/
def endpointHasTag (e : ApiEndpoint) (t : String) : Prop :=
  ∃ l, e.tags = some (.arr l) ∧ JValue.str t ∈ l

/-- Inputs on which `detectDocType` does not hit one of its two
TypeError sites (a null decoded value; a truthy non-string `openapi`
field): the structural part. -/
def structuredSafe : JValue → Bool
  | .null => false
  | .obj kvs =>
      (match lookupField kvs "openapi" with
       | some w => !truthyV w || (match w with | .str _ => true | _ => false)
       | none => true)
  | _ => true

/-- Inputs on which `detectDocType` does not throw: strings are safe
whenever their JSON decoding fails, otherwise safety is that of the
decoded value. -/
def detectSafe : JValue → Bool
  | .str s =>
      (match jsonParse s with
       | none => true
       | some v => structuredSafe v)
  | v => structuredSafe v

/-- The structured value `parseApiDocumentation` dispatches on: the
JSON decoding of a string input, the input itself otherwise. -/
def decodeContent : JValue → Option JValue
  | .str s => jsonParse s
  | v => some v

/-- The seven values of the `HttpMethod` union type of `types/api.ts`. -/
def httpMethodValues : List String :=
  ["GET", "POST", "PUT", "DELETE", "PATCH", "HEAD", "OPTIONS"]

/-- An OpenAPI-style document with a non-empty top-level `security`
and one operation that overrides it with an empty `security` list. -/
def c1Doc : JValue :=
  .obj [("security", .arr [.obj []]),
        ("paths", .obj [("/a", .obj [("get", .obj [("security", .arr [])])])])]

/-- The endpoint both extractors emit for the single operation of
`c1Doc`. -/
def c1Endpoint : ApiEndpoint :=
  { method := "GET"
    path := .str "/a"
    summary := none
    description := none
    parameters := some []
    requestBody := none
    responses := none
    operationId := none
    tags := none
    requiresAuth := some true }

/-- A Postman collection item whose request uses the given method and
URL. -/
def postmanReq (name method url : String) : JValue :=
  .obj [("name", .str name),
        ("request", .obj [("method", .str method), ("url", .str url)])]

/-- A Postman collection with two sibling request items. -/
def c2Collection : JValue :=
  .obj [("info", .obj [("_postman_id", .str "c2")]),
        ("item", .arr [postmanReq "r1" "GET" "https://x.com/a",
                       postmanReq "r2" "GET" "https://x.com/b"])]

/-- An OpenAPI document with one path carrying a "a"-tagged GET
operation and a "b"-tagged POST operation. -/
def c3Doc : JValue :=
  .obj [("paths", .obj [("/u", .obj [
          ("get", .obj [("tags", .arr [.str "a"])]),
          ("post", .obj [("tags", .arr [.str "b"])])])])]

/-- A Postman collection whose single request declares the method
"purge". -/
def c7Collection : JValue :=
  .obj [("info", .obj [("_postman_id", .str "c7")]),
        ("item", .arr [postmanReq "p" "purge" "https://x.com/a"])]

/-- A context whose formatted prompt is exactly 1000 characters long
(the fixed parts contribute 318 characters; the name supplies the
remaining 682). -/
def c9Context : ApiContext :=
  { name := String.mk (List.replicate 682 'x')
    baseUrl := "https://x.com"
    description := none
    endpoints := [] }

/-! ## Theorems -/

/-- Bind on a successful `Except` computation (reduction lemma for the
translated do-blocks). -/
@[simp] theorem except_ok_bind {ε α β : Type} (a : α) (f : α → Except ε β) :
    (Except.ok a : Except ε α) >>= f = f a := rfl

/-- Bind on a failed `Except` computation. -/
@[simp] theorem except_error_bind {ε α β : Type} (e : ε) (f : α → Except ε β) :
    (Except.error e : Except ε α) >>= f = Except.error e := rfl

/-- `pure` in the `Except` monad is `Except.ok`. -/
@[simp] theorem except_pure_eq {ε α : Type} (a : α) :
    (pure a : Except ε α) = Except.ok a := rfl

/-- Rounding-up division by four on the naturals agrees with the
rational ceiling `Math.ceil` computes. -/
theorem natCeilDivFour (n : Nat) :
    (((n + 3) / 4 : Nat) : ℤ) = ⌈(n : ℚ) / 4⌉ := by
  have h1 : n ≤ 4 * ((n + 3) / 4) := by omega
  have h2 : 4 * ((n + 3) / 4) < n + 4 := by omega
  have h1q : (n : ℚ) ≤ 4 * (((n + 3) / 4 : ℕ) : ℚ) := by exact_mod_cast h1
  have h2q : 4 * (((n + 3) / 4 : ℕ) : ℚ) < (n : ℚ) + 4 := by exact_mod_cast h2
  have hc : ((((n + 3) / 4 : ℕ) : ℤ) : ℚ) = (((n + 3) / 4 : ℕ) : ℚ) := by
    norm_cast
  rw [eq_comm, Int.ceil_eq_iff, hc]
  constructor
  · rw [lt_div_iff₀ (by norm_num : (0 : ℚ) < 4)]
    linarith
  · rw [div_le_iff₀ (by norm_num : (0 : ℚ) < 4)]
    linarith

/-- C10: the two token estimators agree: `estimateContextTokens`
equals `estimateTokenCount` applied to the same formatted text, both
computing the rounded-up quarter of the character count. -/
theorem c10_estimators_agree (context : ApiContext) :
    estimateContextTokens context = estimateTokenCount (formatContextForAI context) :=
  rfl

/-- C9: `estimateContextTokens` is the ceiling of the formatted text's
length divided by four; `isContextTooLarge` is true exactly when that
estimate exceeds `maxTokens`; and on any context whose formatted text
is 1000 characters long, `isContextTooLarge` with `maxTokens = 10`
returns true. -/
theorem c9_token_estimate :
    (∀ context : ApiContext,
        (estimateContextTokens context : ℤ) = ⌈((formatContextForAI context).length : ℚ) / 4⌉) ∧
    (∀ (context : ApiContext) (maxTokens : Nat),
        isContextTooLarge context maxTokens = true ↔ maxTokens < estimateContextTokens context) ∧
    (∀ context : ApiContext, (formatContextForAI context).length = 1000 →
        isContextTooLarge context 10 = true) := by
  refine ⟨fun context => natCeilDivFour _, fun context maxTokens => by simp [isContextTooLarge],
    fun context h => ?_⟩
  simp only [isContextTooLarge, estimateContextTokens, h]
  decide

set_option maxRecDepth 40000 in
/-- C9 witness: a concrete context whose formatted prompt has exactly
1000 characters, on which the too-large check at `maxTokens = 10`
returns true. -/
theorem c9_witness :
    (formatContextForAI c9Context).length = 1000 ∧ isContextTooLarge c9Context 10 = true := by
  have h : (formatContextForAI c9Context).length = 1000 := by decide
  exact ⟨h, c9_token_estimate.2.2 c9Context h⟩

/-- C2: the claim says the Postman extractor stops traversing further
siblings once `maxEndpoints` is reached and returns at most that many
endpoints; but the source's `return` inside the `forEach` callback only
skips the current item's children, so on a collection with two sibling
requests and `maxEndpoints = 1` the returned document has 2 endpoints. -/
theorem c2_postman_return_bug :
    (parsePostman c2Collection { maxEndpoints := some 1 }).map
        (fun d => d.endpoints.length) = .ok 2 ∧
    maxReached { maxEndpoints := some 1 } 1 = true := by
  exact ⟨rfl, rfl⟩

/-- C7: the claim says every emitted endpoint's method is one of the
seven `HttpMethod` values; but the Postman extractor uppercases the
declared method string without validation, so a request with method
"purge" yields an endpoint whose method "PURGE" is outside the union. -/
theorem c7_postman_method_bug :
    (parsePostman c7Collection {}).map (fun d => d.endpoints.map fun e => e.method) =
        .ok ["PURGE"] ∧
    ("PURGE" ∈ httpMethodValues → False) := by
  exact ⟨rfl, by decide⟩

/-- C8: the HTML extractor is a total function (it is defined without
an error monad: no input makes it throw), the returned document never
has more than 50 endpoints, and the base URL is either the placeholder
or derived from a URL-shaped substring of the input. -/
theorem c8_parseHTML_bounded (html : String) :
    (parseHTML html).endpoints.length ≤ 50 ∧
    ((parseHTML html).baseUrl = some (.str "https://api.example.com") ∨
      ∃ m, firstUrlMatch html = some m) := by
  constructor
  · simp [parseHTML]
  · rcases h : firstUrlMatch html with _ | m
    · exact Or.inl (by simp [parseHTML, h])
    · exact Or.inr ⟨m, rfl⟩

/-- Lifting preserves success. -/
theorem liftJS_ok {α : Type} (a : α) : liftJS (.ok a) = .ok a := rfl

/-- Lifting maps a TypeError to a TypeError. -/
theorem liftJS_typeError {α : Type} :
    liftJS (α := α) (.error .typeError) = .error .typeError := rfl

/-- A TypeError never lifts to the `UnsupportedFormat` failure. -/
theorem liftJS_ne_unsupported {α : Type} (x : Except JSError α) :
    liftJS x ≠ .error .unsupportedFormat := by
  cases x with
  | ok a => simp [liftJS]
  | error e => cases e; simp [liftJS]

/-- The dispatch on a decoded document fails with `UnsupportedFormat`
exactly when detection classifies it as `unknown`. -/
theorem parseDetected_unsupported_iff (content doc : JValue) (options : ParserOptions) :
    parseDetected content doc options = .error .unsupportedFormat ↔
      detectDocType doc = .ok .unknown := by
  unfold parseDetected
  cases hdt : detectDocType doc with
  | error e => cases e; simp [liftJS]
  | ok dt =>
      cases dt <;>
        simp [liftJS_ok, liftJS_ne_unsupported]

/-- C5: `parseApiDocumentation` fails with the unsupported-format
error exactly when the structured value it dispatches on (the input
itself, or the JSON decoding of a string input) is classified as
`unknown`; a string input whose JSON decoding fails is routed to the
HTML extractor and yields a document. -/
theorem c5_unsupported_format :
    (∀ (content : JValue) (options : ParserOptions),
        parseApiDocumentation content options = .error .unsupportedFormat ↔
          ∃ doc, decodeContent content = some doc ∧ detectDocType doc = .ok .unknown) ∧
    (∀ (s : String) (options : ParserOptions), jsonParse s = none →
        parseApiDocumentation (.str s) options = .ok (parseHTML s)) := by
  constructor
  · intro content options
    cases content with
    | str s =>
        cases hp : jsonParse s <;>
          simp [parseApiDocumentation, decodeContent, hp, parseDetected_unsupported_iff]
    | null => simp [parseApiDocumentation, decodeContent, parseDetected_unsupported_iff]
    | bool b => simp [parseApiDocumentation, decodeContent, parseDetected_unsupported_iff]
    | num q => simp [parseApiDocumentation, decodeContent, parseDetected_unsupported_iff]
    | arr xs => simp [parseApiDocumentation, decodeContent, parseDetected_unsupported_iff]
    | obj kvs => simp [parseApiDocumentation, decodeContent, parseDetected_unsupported_iff]
  · intro s options h
    simp [parseApiDocumentation, h]

/-- C5 witness: a string that is not JSON is handled by the HTML
extractor and produces a document rather than an error. -/
theorem c5_witness :
    parseApiDocumentation (.str "<p>hello</p>") {} = .ok (parseHTML "<p>hello</p>") :=
  c5_unsupported_format.2 "<p>hello</p>" {} rfl

/-- C6: the validator evaluates its three checks independently and
returns every applicable error string (`valid` is true exactly when no
error accrued); in particular a document with base URL "not a url" and
no endpoints gets exactly the two errors "No endpoints found" and
"Invalid base URL format" simultaneously. -/
theorem c6_validator_independent :
    (∀ parsed : ParsedDocumentation,
        (validateParsedDoc parsed).errors =
          (if truthyO parsed.baseUrl then [] else ["Missing base URL"]) ++
          (if parsed.endpoints.length = 0 then ["No endpoints found"] else []) ++
          (if urlCanParse (jsToStringO parsed.baseUrl) then [] else ["Invalid base URL format"]) ∧
        ((validateParsedDoc parsed).valid = true ↔ (validateParsedDoc parsed).errors = [])) ∧
    (∀ meta : DocMetadata,
        validateParsedDoc ⟨some (.str "not a url"), [], meta⟩ =
          { valid := false, errors := ["No endpoints found", "Invalid base URL format"] }) := by
  constructor
  · intro parsed
    constructor
    · cases hb : truthyO parsed.baseUrl <;> simp [validateParsedDoc, hb]
    · simp [validateParsedDoc, List.length_eq_zero]
  · intro meta
    rfl

/-- On a structurally safe value the detector's structural part always
classifies without throwing. -/
theorem detectStructured_safe (v : JValue) (h : structuredSafe v = true) :
    ∃ d, detectStructured v = .ok d := by
  cases v with
  | null => simp [structuredSafe] at h
  | bool b => exact ⟨.unknown, rfl⟩
  | num q => exact ⟨.unknown, rfl⟩
  | str s => exact ⟨.unknown, rfl⟩
  | arr xs => exact ⟨.unknown, rfl⟩
  | obj kvs =>
      simp only [structuredSafe] at h
      simp only [detectStructured, getFieldE, getFieldV, except_ok_bind]
      cases hlk : lookupField kvs "openapi" with
      | none =>
          simp only [truthyO, Bool.false_eq_true, if_false, except_pure_eq, except_ok_bind]
          repeat' split
          all_goals exact ⟨_, rfl⟩
      | some w =>
          simp only [hlk] at h
          cases hw : truthyV w with
          | false =>
              simp only [truthyO, hw, Bool.false_eq_true, if_false, except_pure_eq,
                except_ok_bind]
              repeat' split
              all_goals exact ⟨_, rfl⟩
          | true =>
              cases w with
              | str s =>
                  simp only [truthyO, hw, eq_self_iff_true, if_true, except_pure_eq,
                    except_ok_bind]
                  repeat' split
                  all_goals exact ⟨_, rfl⟩
              | null => simp [truthyV] at hw
              | bool b => simp [hw] at h
              | num q => simp [hw] at h
              | arr xs => simp [hw] at h
              | obj kvs' => simp [hw] at h

/-- C4 counterexample: the claim says `detectFormat` is total and
never throws, including on null and on objects whose `openapi` field is
not a string; but both throw a TypeError. -/
theorem c4_counterexample :
    detectDocType (.obj [("openapi", .num 3)]) = .error .typeError ∧
    detectDocType .null = .error .typeError :=
  ⟨rfl, rfl⟩

/-- C4 amended: `detectFormat` returns one of the five classifications
and never throws on every string input (a string that fails JSON
decoding is classified as html) and on every structured value that is
not null and whose truthy `openapi` field, if any, is a string; on a
null (decoded) value or a truthy non-string `openapi` field it throws a
TypeError. -/
theorem c4_detect_total :
    (∀ v : JValue, detectSafe v = true → ∃ d, detectDocType v = .ok d) ∧
    (∀ s : String, jsonParse s = none → detectDocType (.str s) = .ok .html) := by
  constructor
  · intro v h
    cases v with
    | str s =>
        simp only [detectSafe] at h
        cases hp : jsonParse s with
        | none => exact ⟨.html, by simp [detectDocType, hp]⟩
        | some w =>
            rw [hp] at h
            obtain ⟨d, hd⟩ := detectStructured_safe w h
            exact ⟨d, by simp [detectDocType, hp, hd]⟩
    | null => simp [detectSafe, structuredSafe] at h
    | bool b => exact detectStructured_safe (.bool b) h
    | num q => exact detectStructured_safe (.num q) h
    | arr xs => exact detectStructured_safe (.arr xs) h
    | obj kvs => exact detectStructured_safe (.obj kvs) h
  · intro s h
    simp [detectDocType, h]

/-- C4 witness: a safe structured input is classified without
throwing, and a non-JSON string is classified as html. -/
theorem c4_witness :
    detectSafe (.obj [("x", .num 1)]) = true ∧
    (∃ d, detectDocType (.obj [("x", .num 1)]) = .ok d) ∧
    jsonParse "<html>" = none ∧
    detectDocType (.str "<html>") = .ok .html :=
  ⟨rfl, c4_detect_total.1 _ rfl, rfl, c4_detect_total.2 "<html>" rfl⟩

/-- A successful throwing property access returns the plain access. -/
theorem getFieldE_ok {v : JValue} {k : String} {o : Option JValue}
    (h : getFieldE v k = .ok o) : o = getFieldV v k := by
  cases v <;> simp [getFieldE] at h <;> exact h.symm

/-- Fields of a successfully built OpenAPI endpoint: `requiresAuth` is
the disjunction of the operation-level and document-level non-empty
security tests, and `tags` is copied verbatim. -/
theorem mkOpenAPIEndpoint_spec {doc : JValue} {path m : String} {operation : JValue}
    {e : ApiEndpoint} (h : mkOpenAPIEndpoint doc path m operation = .ok e) :
    e.requiresAuth = some (securityNonEmpty operation || securityNonEmpty doc) ∧
      e.tags = getFieldV operation "tags" := by
  unfold mkOpenAPIEndpoint at h
  cases hp : collectParams mkOpenAPIParam operation with
  | error err => rw [hp] at h; simp at h
  | ok ps =>
      rw [hp] at h
      cases hs : getFieldE operation "security" with
      | error err => rw [hs] at h; simp at h
      | ok opSec =>
          rw [hs] at h
          cases hd : getFieldE doc "security" with
          | error err => rw [hd] at h; simp at h
          | ok docSec =>
              rw [hd] at h
              simp only [except_ok_bind, except_pure_eq, Except.ok.injEq] at h
              rw [← h]
              rw [getFieldE_ok hs, getFieldE_ok hd]
              exact ⟨rfl, rfl⟩

/-- Fields of a successfully built Swagger endpoint (same security
derivation and verbatim `tags`). -/
theorem mkSwaggerEndpoint_spec {doc : JValue} {path m : String} {operation : JValue}
    {e : ApiEndpoint} (h : mkSwaggerEndpoint doc path m operation = .ok e) :
    e.requiresAuth = some (securityNonEmpty operation || securityNonEmpty doc) ∧
      e.tags = getFieldV operation "tags" := by
  unfold mkSwaggerEndpoint at h
  cases hp : collectParams mkSwaggerParam operation with
  | error err => rw [hp] at h; simp at h
  | ok ps =>
      rw [hp] at h
      cases hs : getFieldE operation "security" with
      | error err => rw [hs] at h; simp at h
      | ok opSec =>
          rw [hs] at h
          cases hd : getFieldE doc "security" with
          | error err => rw [hd] at h; simp at h
          | ok docSec =>
              rw [hd] at h
              simp only [except_ok_bind, except_pure_eq, Except.ok.injEq] at h
              rw [← h]
              rw [getFieldE_ok hs, getFieldE_ok hd]
              exact ⟨rfl, rfl⟩

/-- Every endpoint the method loop adds beyond its accumulator was
produced by the emit function on some method and operation. -/
theorem methodsLoop_mem {opts : ParserOptions}
    {emit : String → String → JValue → Except JSError ApiEndpoint}
    {path : String} {pathItem : JValue} :
    ∀ {ms : List String} {acc l : List ApiEndpoint},
      methodsLoop opts emit path pathItem ms acc = .ok l →
      ∀ e ∈ l, e ∈ acc ∨ ∃ m operation, emit path m operation = .ok e := by
  intro ms
  induction ms with
  | nil =>
      intro acc l h e he
      simp only [methodsLoop, Except.ok.injEq] at h
      exact Or.inl (h ▸ he)
  | cons m rest ih =>
      intro acc l h e he
      simp only [methodsLoop] at h
      cases hg : getFieldE pathItem m with
      | error err => rw [hg] at h; simp at h
      | ok opF =>
          rw [hg] at h
          simp only [except_ok_bind] at h
          cases opF with
          | none => exact ih h e he
          | some operation =>
              simp only at h
              cases ht : truthyV operation with
              | false =>
                  rw [ht, if_neg Bool.false_ne_true] at h
                  exact ih h e he
              | true =>
                  rw [ht, if_pos rfl] at h
                  cases hs : opFilterSkip opts operation with
                  | error err => rw [hs] at h; simp at h
                  | ok skip =>
                      rw [hs] at h
                      simp only [except_ok_bind] at h
                      cases skip with
                      | true =>
                          rw [if_pos rfl] at h
                          exact ih h e he
                      | false =>
                          rw [if_neg Bool.false_ne_true] at h
                          cases hemit : emit path m operation with
                          | error err => rw [hemit] at h; simp at h
                          | ok e' =>
                              rw [hemit] at h
                              simp only [except_ok_bind] at h
                              by_cases hm : maxReached opts (acc ++ [e']).length = true
                              · rw [if_pos hm] at h
                                simp only [Except.ok.injEq] at h
                                rcases List.mem_append.mp (h ▸ he) with hin | hin
                                · exact Or.inl hin
                                · exact Or.inr ⟨m, operation,
                                    (List.mem_singleton.mp hin) ▸ hemit⟩
                              · rw [if_neg hm] at h
                                rcases ih h e he with hin | hex
                                · rcases List.mem_append.mp hin with hin' | hin'
                                  · exact Or.inl hin'
                                  · exact Or.inr ⟨m, operation,
                                      (List.mem_singleton.mp hin') ▸ hemit⟩
                                · exact Or.inr hex

/-- Every endpoint the path loop adds beyond its accumulator was
produced by the emit function. -/
theorem pathsLoop_mem {opts : ParserOptions}
    {emit : String → String → JValue → Except JSError ApiEndpoint} :
    ∀ {entries : List (String × JValue)} {acc l : List ApiEndpoint},
      pathsLoop opts emit entries acc = .ok l →
      ∀ e ∈ l, e ∈ acc ∨ ∃ path m operation, emit path m operation = .ok e := by
  intro entries
  induction entries with
  | nil =>
      intro acc l h e he
      simp only [pathsLoop, Except.ok.injEq] at h
      exact Or.inl (h ▸ he)
  | cons entry rest ih =>
      intro acc l h e he
      obtain ⟨path, pathItem⟩ := entry
      simp only [pathsLoop] at h
      cases hml : methodsLoop opts emit path pathItem openAPIMethods acc with
      | error err => rw [hml] at h; simp at h
      | ok acc' =>
          rw [hml] at h
          simp only [except_ok_bind] at h
          have step : ∀ x ∈ acc', x ∈ acc ∨ ∃ p m operation, emit p m operation = .ok x := by
            intro x hx
            rcases methodsLoop_mem hml x hx with hin | ⟨m, operation, hemit⟩
            · exact Or.inl hin
            · exact Or.inr ⟨path, m, operation, hemit⟩
          by_cases hm : maxReached opts acc'.length = true
          · rw [if_pos hm] at h
            simp only [Except.ok.injEq] at h
            exact step e (h ▸ he)
          · rw [if_neg hm] at h
            rcases ih h e he with hin | hex
            · exact step e hin
            · exact Or.inr hex

/-- Every endpoint of a successful OpenAPI parse was emitted by
`mkOpenAPIEndpoint` on some path, method and operation of the
document. -/
theorem parseOpenAPI_mem {doc : JValue} {opts : ParserOptions} {d : ParsedDocumentation}
    (h : parseOpenAPI doc opts = .ok d) :
    ∀ e ∈ d.endpoints, ∃ path m operation,
      mkOpenAPIEndpoint doc path m operation = .ok e := by
  intro e he
  unfold parseOpenAPI at h
  cases hsv : getFieldE doc "servers" with
  | error err => rw [hsv] at h; simp at h
  | ok servers =>
      rw [hsv] at h
      simp only [except_ok_bind] at h
      cases hpf : getFieldE doc "paths" with
      | error err => rw [hpf] at h; simp at h
      | ok pathsF =>
          rw [hpf] at h
          simp only [except_ok_bind] at h
          by_cases htp : truthyO pathsF = true
          · rw [if_pos htp] at h
            cases hl : pathsLoop opts (mkOpenAPIEndpoint doc)
                (jsEntries (pathsF.getD .null)) [] with
            | error err => rw [hl] at h; simp at h
            | ok eps =>
                rw [hl] at h
                simp only [except_ok_bind, except_pure_eq, Except.ok.injEq] at h
                rw [← h] at he
                rcases pathsLoop_mem hl e he with hin | hex
                · simp at hin
                · exact hex
          · rw [if_neg htp] at h
            simp only [except_pure_eq, except_ok_bind, Except.ok.injEq] at h
            rw [← h] at he
            simp at he

/-- Every endpoint of a successful Swagger parse was emitted by
`mkSwaggerEndpoint` on some path, method and operation. -/
theorem parseSwagger_mem {doc : JValue} {opts : ParserOptions} {d : ParsedDocumentation}
    (h : parseSwagger doc opts = .ok d) :
    ∀ e ∈ d.endpoints, ∃ path m operation,
      mkSwaggerEndpoint doc path m operation = .ok e := by
  intro e he
  unfold parseSwagger at h
  cases hsc : getFieldE doc "schemes" with
  | error err => rw [hsc] at h; simp at h
  | ok schemesF =>
      rw [hsc] at h
      simp only [except_ok_bind] at h
      cases hho : getFieldE doc "host" with
      | error err => rw [hho] at h; simp at h
      | ok hostF =>
          rw [hho] at h
          simp only [except_ok_bind] at h
          cases hbp : getFieldE doc "basePath" with
          | error err => rw [hbp] at h; simp at h
          | ok basePathF =>
              rw [hbp] at h
              simp only [except_ok_bind] at h
              cases hpf : getFieldE doc "paths" with
              | error err => rw [hpf] at h; simp at h
              | ok pathsF =>
                  rw [hpf] at h
                  simp only [except_ok_bind] at h
                  by_cases htp : truthyO pathsF = true
                  · rw [if_pos htp] at h
                    cases hl : pathsLoop opts (mkSwaggerEndpoint doc)
                        (jsEntries (pathsF.getD .null)) [] with
                    | error err => rw [hl] at h; simp at h
                    | ok eps =>
                        rw [hl] at h
                        simp only [except_ok_bind, except_pure_eq, Except.ok.injEq] at h
                        rw [← h] at he
                        rcases pathsLoop_mem hl e he with hin | hex
                        · simp at hin
                        · exact hex
                  · rw [if_neg htp] at h
                    simp only [except_pure_eq, except_ok_bind, Except.ok.injEq] at h
                    rw [← h] at he
                    simp at he

/-- C1 amended: for both the OpenAPI and Swagger extractors, every
emitted endpoint comes from some operation of the document, and its
`requiresAuth` is true if and only if that operation declares a
non-empty security requirement or the document declares a non-empty
top-level security requirement — an operation-level empty security
list does not override the document-level default. -/
theorem c1_requires_auth :
    (∀ (doc : JValue) (options : ParserOptions) (d : ParsedDocumentation),
        parseOpenAPI doc options = .ok d → ∀ e ∈ d.endpoints,
          ∃ path m operation, mkOpenAPIEndpoint doc path m operation = .ok e ∧
            (e.requiresAuth = some true ↔
              (securityNonEmpty operation = true ∨ securityNonEmpty doc = true))) ∧
    (∀ (doc : JValue) (options : ParserOptions) (d : ParsedDocumentation),
        parseSwagger doc options = .ok d → ∀ e ∈ d.endpoints,
          ∃ path m operation, mkSwaggerEndpoint doc path m operation = .ok e ∧
            (e.requiresAuth = some true ↔
              (securityNonEmpty operation = true ∨ securityNonEmpty doc = true))) := by
  constructor
  · intro doc options d h e he
    obtain ⟨path, m, operation, hmk⟩ := parseOpenAPI_mem h e he
    obtain ⟨hauth, _⟩ := mkOpenAPIEndpoint_spec hmk
    refine ⟨path, m, operation, hmk, ?_⟩
    rw [hauth]
    simp [Bool.or_eq_true]
  · intro doc options d h e he
    obtain ⟨path, m, operation, hmk⟩ := parseSwagger_mem h e he
    obtain ⟨hauth, _⟩ := mkSwaggerEndpoint_spec hmk
    refine ⟨path, m, operation, hmk, ?_⟩
    rw [hauth]
    simp [Bool.or_eq_true]

/-- C1 counterexample: the claim says an operation with `security = []`
under a document with non-empty top-level security yields
`requiresAuth = false`; but on such a document the extractor emits the
endpoint with `requiresAuth = true`. -/
theorem c1_counterexample :
    (parseOpenAPI c1Doc {}).map (fun d => d.endpoints.map fun e => e.requiresAuth) =
        .ok [some true] ∧
    getFieldV (.obj [("security", .arr [])]) "security" = some (.arr []) ∧
    securityNonEmpty c1Doc = true :=
  ⟨rfl, rfl, rfl⟩

/-- C1 witness: the amended theorem applied to the concrete document
`c1Doc` for both extractors. -/
theorem c1_witness :
    (∃ path m operation, mkOpenAPIEndpoint c1Doc path m operation = .ok c1Endpoint ∧
        (c1Endpoint.requiresAuth = some true ↔
          (securityNonEmpty operation = true ∨ securityNonEmpty c1Doc = true))) ∧
    (∃ path m operation, mkSwaggerEndpoint c1Doc path m operation = .ok c1Endpoint ∧
        (c1Endpoint.requiresAuth = some true ↔
          (securityNonEmpty operation = true ∨ securityNonEmpty c1Doc = true))) := by
  constructor
  · exact c1_requires_auth.1 c1Doc {} _ rfl c1Endpoint
      (show c1Endpoint ∈ [c1Endpoint] from List.mem_singleton_self _)
  · exact c1_requires_auth.2 c1Doc {} _ rfl c1Endpoint
      (show c1Endpoint ∈ [c1Endpoint] from List.mem_singleton_self _)

/-- With empty options the only skip test that remains is the
deprecation filter (deprecated operations are skipped because
`includeDeprecated` defaults to falsy). -/
theorem opFilter_empty (operation : JValue) :
    opFilterSkip {} operation = .ok (truthyO (getFieldV operation "deprecated")) := by
  unfold opFilterSkip
  cases hd : truthyO (getFieldV operation "deprecated") <;> simp [hd]

/-- With a single include tag, a deprecated operation is still skipped
up front. -/
theorem opFilter_tagged_dep (t : String) (operation : JValue)
    (hd : truthyO (getFieldV operation "deprecated") = true) :
    opFilterSkip { includeTags := some [t] } operation = .ok true := by
  unfold opFilterSkip
  simp [hd]

/-- A membership test against a single include tag succeeds only on
that tag. -/
theorem tagInList_single {tg : JValue} {t : String}
    (h : tagInList tg [t] = true) : tg = .str t := by
  cases tg <;> simp [tagInList] at h ⊢
  exact h

/-- An operation that passes the include-tag filter is not deprecated
and carries the include tag in its `tags` array. -/
theorem opFilter_tagged (t : String) (operation : JValue)
    (h : opFilterSkip { includeTags := some [t] } operation = .ok false) :
    truthyO (getFieldV operation "deprecated") = false ∧
      ∃ xs, getFieldV operation "tags" = some (.arr xs) ∧ JValue.str t ∈ xs := by
  unfold opFilterSkip at h
  cases hd : truthyO (getFieldV operation "deprecated") with
  | true => rw [hd] at h; simp at h
  | false =>
      rw [hd] at h
      simp only [Bool.false_and, Bool.false_eq_true, if_false] at h
      refine ⟨rfl, ?_⟩
      cases hj : jsSomeTags (getFieldV operation "tags") [t] with
      | error err => rw [hj] at h; simp at h
      | ok hasTags =>
          rw [hj] at h
          simp only [except_ok_bind] at h
          by_cases hh : hasTags = some true
          · subst hh
            cases htg : getFieldV operation "tags" with
            | none => rw [htg] at hj; simp [jsSomeTags] at hj
            | some tv =>
                rw [htg] at hj
                cases tv with
                | null => simp [jsSomeTags] at hj
                | arr xs =>
                    simp only [jsSomeTags, Except.ok.injEq, Option.some.injEq] at hj
                    obtain ⟨tg, hmem, htag⟩ := List.any_eq_true.mp hj
                    exact ⟨xs, rfl, (tagInList_single htag) ▸ hmem⟩
                | bool b => simp [jsSomeTags] at hj
                | num q => simp [jsSomeTags] at hj
                | str s => simp [jsSomeTags] at hj
                | obj kvs => simp [jsSomeTags] at hj
          · exfalso
            rw [if_pos (by simp [hh])] at h
            simp at h
            exact hh h

/-- Method-loop comparison for tag filtering: without a cap, every
endpoint the filtered run collects is also collected by the unfiltered
run, and every endpoint it adds beyond its accumulator carries the
include tag. -/
theorem c3_methodsLoop (doc : JValue) (t path : String) (pathItem : JValue) :
    ∀ (ms : List String) (acc₁ acc₂ l₁ l₂ : List ApiEndpoint),
      methodsLoop { includeTags := some [t] } (mkOpenAPIEndpoint doc) path pathItem ms acc₁ =
        .ok l₁ →
      methodsLoop {} (mkOpenAPIEndpoint doc) path pathItem ms acc₂ = .ok l₂ →
      (∀ e ∈ acc₁, e ∈ acc₂) →
      (∀ e ∈ l₁, e ∈ l₂) ∧ (∀ e ∈ l₁, e ∈ acc₁ ∨ endpointHasTag e t) := by
  intro ms
  induction ms with
  | nil =>
      intro acc₁ acc₂ l₁ l₂ h₁ h₂ hsub
      simp only [methodsLoop, Except.ok.injEq] at h₁ h₂
      subst h₁; subst h₂
      exact ⟨hsub, fun e he => Or.inl he⟩
  | cons m rest ih =>
      intro acc₁ acc₂ l₁ l₂ h₁ h₂ hsub
      simp only [methodsLoop] at h₁ h₂
      cases hg : getFieldE pathItem m with
      | error err => rw [hg] at h₁; simp at h₁
      | ok opF =>
          rw [hg] at h₁ h₂
          simp only [except_ok_bind] at h₁ h₂
          cases opF with
          | none => exact ih _ _ _ _ h₁ h₂ hsub
          | some operation =>
              simp only at h₁ h₂
              cases ht : truthyV operation with
              | false =>
                  rw [ht, if_neg Bool.false_ne_true] at h₁ h₂
                  exact ih _ _ _ _ h₁ h₂ hsub
              | true =>
                  rw [ht, if_pos rfl] at h₁ h₂
                  rw [opFilter_empty operation] at h₂
                  simp only [except_ok_bind] at h₂
                  cases hd : truthyO (getFieldV operation "deprecated") with
                  | true =>
                      rw [hd, if_pos rfl] at h₂
                      rw [opFilter_tagged_dep t operation hd] at h₁
                      simp only [except_ok_bind, if_true] at h₁
                      exact ih _ _ _ _ h₁ h₂ hsub
                  | false =>
                      rw [hd, if_neg Bool.false_ne_true] at h₂
                      cases hemit : mkOpenAPIEndpoint doc path m operation with
                      | error err => rw [hemit] at h₂; simp at h₂
                      | ok e' =>
                          rw [hemit] at h₂
                          simp only [except_ok_bind] at h₂
                          rw [show maxReached {} (acc₂ ++ [e']).length = false from rfl,
                            if_neg Bool.false_ne_true] at h₂
                          cases hs₁ : opFilterSkip { includeTags := some [t] } operation with
                          | error err => rw [hs₁] at h₁; simp at h₁
                          | ok skip₁ =>
                              rw [hs₁] at h₁
                              simp only [except_ok_bind] at h₁
                              cases skip₁ with
                              | true =>
                                  rw [if_pos rfl] at h₁
                                  exact ih _ _ _ _ h₁ h₂ fun e he =>
                                    List.mem_append_left _ (hsub e he)
                              | false =>
                                  rw [if_neg Bool.false_ne_true, hemit] at h₁
                                  simp only [except_ok_bind] at h₁
                                  rw [show maxReached { includeTags := some [t] }
                                        (acc₁ ++ [e']).length = false from rfl,
                                    if_neg Bool.false_ne_true] at h₁
                                  have hsub' : ∀ e ∈ acc₁ ++ [e'], e ∈ acc₂ ++ [e'] := by
                                    intro e he
                                    rcases List.mem_append.mp he with h' | h'
                                    · exact List.mem_append_left _ (hsub e h')
                                    · exact List.mem_append_right _ h'
                                  obtain ⟨hsubL, htagL⟩ := ih _ _ _ _ h₁ h₂ hsub'
                                  refine ⟨hsubL, fun e he => ?_⟩
                                  rcases htagL e he with hin | hP
                                  · rcases List.mem_append.mp hin with h' | h'
                                    · exact Or.inl h'
                                    · right
                                      obtain ⟨_, xs, htags, hmem⟩ :=
                                        opFilter_tagged t operation hs₁
                                      obtain ⟨_, htagse⟩ := mkOpenAPIEndpoint_spec hemit
                                      refine ⟨xs, ?_, hmem⟩
                                      rw [List.mem_singleton.mp h', htagse, htags]
                                  · exact Or.inr hP

/-- Path-loop comparison for tag filtering. -/
theorem c3_pathsLoop (doc : JValue) (t : String) :
    ∀ (entries : List (String × JValue)) (acc₁ acc₂ l₁ l₂ : List ApiEndpoint),
      pathsLoop { includeTags := some [t] } (mkOpenAPIEndpoint doc) entries acc₁ = .ok l₁ →
      pathsLoop {} (mkOpenAPIEndpoint doc) entries acc₂ = .ok l₂ →
      (∀ e ∈ acc₁, e ∈ acc₂) →
      (∀ e ∈ l₁, e ∈ l₂) ∧ (∀ e ∈ l₁, e ∈ acc₁ ∨ endpointHasTag e t) := by
  intro entries
  induction entries with
  | nil =>
      intro acc₁ acc₂ l₁ l₂ h₁ h₂ hsub
      simp only [pathsLoop, Except.ok.injEq] at h₁ h₂
      subst h₁; subst h₂
      exact ⟨hsub, fun e he => Or.inl he⟩
  | cons entry rest ih =>
      intro acc₁ acc₂ l₁ l₂ h₁ h₂ hsub
      obtain ⟨path, pathItem⟩ := entry
      simp only [pathsLoop] at h₁ h₂
      cases hm₁ : methodsLoop { includeTags := some [t] } (mkOpenAPIEndpoint doc)
          path pathItem openAPIMethods acc₁ with
      | error err => rw [hm₁] at h₁; simp at h₁
      | ok a₁ =>
          rw [hm₁] at h₁
          simp only [except_ok_bind] at h₁
          cases hm₂ : methodsLoop {} (mkOpenAPIEndpoint doc)
              path pathItem openAPIMethods acc₂ with
          | error err => rw [hm₂] at h₂; simp at h₂
          | ok a₂ =>
              rw [hm₂] at h₂
              simp only [except_ok_bind] at h₂
              rw [show maxReached { includeTags := some [t] } a₁.length = false from rfl,
                if_neg Bool.false_ne_true] at h₁
              rw [show maxReached {} a₂.length = false from rfl,
                if_neg Bool.false_ne_true] at h₂
              obtain ⟨hsubM, htagM⟩ :=
                c3_methodsLoop doc t path pathItem openAPIMethods acc₁ acc₂ a₁ a₂ hm₁ hm₂ hsub
              obtain ⟨hsubL, htagL⟩ := ih _ _ _ _ h₁ h₂ hsubM
              refine ⟨hsubL, fun e he => ?_⟩
              rcases htagL e he with hin | hP
              · exact htagM e hin
              · exact Or.inr hP

/-- C3: with all other options left empty, the endpoints of the
tag-filtered OpenAPI parse are a subset of the endpoints of the
unfiltered parse, and every endpoint of the filtered result carries the
include tag. -/
theorem c3_tag_filter_subset (t : String) (doc : JValue) (d₁ d₂ : ParsedDocumentation)
    (h₁ : parseOpenAPI doc { includeTags := some [t] } = .ok d₁)
    (h₂ : parseOpenAPI doc {} = .ok d₂) :
    (∀ e ∈ d₁.endpoints, e ∈ d₂.endpoints) ∧
      (∀ e ∈ d₁.endpoints, endpointHasTag e t) := by
  unfold parseOpenAPI at h₁ h₂
  cases hsv : getFieldE doc "servers" with
  | error err => rw [hsv] at h₁; simp at h₁
  | ok servers =>
      rw [hsv] at h₁ h₂
      simp only [except_ok_bind] at h₁ h₂
      cases hpf : getFieldE doc "paths" with
      | error err => rw [hpf] at h₁; simp at h₁
      | ok pathsF =>
          rw [hpf] at h₁ h₂
          simp only [except_ok_bind] at h₁ h₂
          by_cases htp : truthyO pathsF = true
          · rw [if_pos htp] at h₁ h₂
            cases hl₁ : pathsLoop { includeTags := some [t] } (mkOpenAPIEndpoint doc)
                (jsEntries (pathsF.getD .null)) [] with
            | error err => rw [hl₁] at h₁; simp at h₁
            | ok eps₁ =>
                rw [hl₁] at h₁
                cases hl₂ : pathsLoop {} (mkOpenAPIEndpoint doc)
                    (jsEntries (pathsF.getD .null)) [] with
                | error err => rw [hl₂] at h₂; simp at h₂
                | ok eps₂ =>
                    rw [hl₂] at h₂
                    simp only [except_ok_bind, except_pure_eq, Except.ok.injEq] at h₁ h₂
                    obtain ⟨hsubL, htagL⟩ :=
                      c3_pathsLoop doc t (jsEntries (pathsF.getD .null)) [] [] eps₁ eps₂
                        hl₁ hl₂ (fun e he => absurd he (List.not_mem_nil e))
                    rw [← h₁, ← h₂]
                    refine ⟨hsubL, fun e he => ?_⟩
                    rcases htagL e he with hin | hP
                    · exact absurd hin (List.not_mem_nil e)
                    · exact hP
          · rw [if_neg htp] at h₁ h₂
            simp only [except_pure_eq, except_ok_bind, Except.ok.injEq] at h₁ h₂
            rw [← h₁]
            exact ⟨fun e he => absurd he (List.not_mem_nil e),
              fun e he => absurd he (List.not_mem_nil e)⟩

/-- C3 witness: on a document with one "a"-tagged and one "b"-tagged
operation, the filtered parse is a subset of the unfiltered parse and
every filtered endpoint carries tag "a". -/
theorem c3_witness :
    ∃ d₁ d₂, parseOpenAPI c3Doc { includeTags := some ["a"] } = .ok d₁ ∧
      parseOpenAPI c3Doc {} = .ok d₂ ∧
      ((∀ e ∈ d₁.endpoints, e ∈ d₂.endpoints) ∧
        (∀ e ∈ d₁.endpoints, endpointHasTag e "a")) ∧
      d₁.endpoints.length = 1 ∧ d₂.endpoints.length = 2 :=
  ⟨_, _, rfl, rfl, c3_tag_filter_subset "a" c3Doc _ _ rfl rfl, rfl, rfl⟩

end ApiPlayground
